import Mathlib

/- Verification development for the gorilla/muxy URL router sources.

The Go sources are shallowly embedded here:
  * the percent codec of src/unnamed/part_001 (EncodePathSegment,
    DecodePathSegment) and src/unnamed/part_000 (percentDecode),
  * the pattern parsers of src/parser.go and src/unnamed/part_000,
  * the trie matchers of src/tree.go, src/matcher.go and
    src/matchers/mpath/mpath.go,
  * route registration (src/unnamed/part_008), method dispatch
    (methodHandler) and variable extraction (setVars) from mpath.

Go strings are byte strings.  The percent codec is modelled on `List Nat`
(byte values); the parsers and matchers on `List Char`, where each char
stands for one byte (all inputs of interest are ASCII).  A request path or
host string is modelled as its list of separator-split segments, following
the splitting the Go code performs with strings.IndexByte; the Go code
treats a single trailing separator as ending the segment list, so a path
string maps to its segments with one trailing empty segment dropped. -/

namespace Muxy

/-! ## Percent codec (src/unnamed/part_001 and src/unnamed/part_000) -/

/-- Bytes of the RFC 3986 pchar set: unreserved, sub-delims, colon and
at-sign; from the init of shouldEncode in src/unnamed/part_001.
(`Char.ofNat 39` is the single-quote sub-delim.) -/
def pcharBytes : List Nat :=
  (("abcdefghijklmnopqrstuvwxyzABCDEFGHIJKLMNOPQRSTUVWXYZ0123456789-._~".data
    ++ ['!', '$', '&', Char.ofNat 39, '(', ')', '*', '+', ',', ';', '=', ':', '@']).map
    Char.toNat)

/-- shouldEncode table of src/unnamed/part_001: a byte is escaped iff it is
not in the pchar set. -/
def shouldEncode (b : Nat) : Bool := !(pcharBytes.contains b)

/-- The digit table "0123456789ABCDEF" used by EncodePathSegment. -/
def upperHexDigit (n : Nat) : Nat := if n < 10 then 48 + n else 55 + n

/-- EncodePathSegment of src/unnamed/part_001: every byte with
shouldEncode set becomes a percent escape (the source counts the escapes
and fills a preallocated buffer; the produced byte sequence is exactly
this concatenation, with b>>4 and b&15 written as division and modulus). -/
def EncodePathSegment : List Nat → List Nat
  | [] => []
  | b :: s =>
    (if shouldEncode b then [37, upperHexDigit (b / 16), upperHexDigit (b % 16)] else [b])
      ++ EncodePathSegment s

/-- isHex of src/unnamed/part_001 / part_000. -/
def isHex (b : Nat) : Bool :=
  (48 ≤ b && b ≤ 57) || (97 ≤ b && b ≤ 102) || (65 ≤ b && b ≤ 70)

/-- hexValue of src/unnamed/part_001 / part_000 (`b & 0xf` is `b % 16`). -/
def hexValue (b : Nat) : Nat := if b ≤ 57 then b % 16 else 9 + b % 16

/-- The validation scan of DecodePathSegment (src/unnamed/part_001, first
loop) and of percentDecode (src/unnamed/part_000): every percent byte (37)
must be followed by two hex digits; on failure the offending substring of
at most 3 bytes starting at the percent is reported (`s = s[i:]; if
len(s) > 3 { s = s[:3] }`). -/
def scanEscapes : List Nat → Option (List Nat)
  | [] => none
  | b :: s =>
    if b = 37 then
      match s with
      | h :: l :: s2 =>
        if isHex h && isHex l then scanEscapes s2 else some (b :: h :: [l])
      | _ => some (b :: s)
    else scanEscapes s

/-- The decoding pass of DecodePathSegment / percentDecode (second loop):
replace each escape by its byte.  The source runs it only after the scan
succeeded, so the short-percent fallback case is unreachable there; we keep
the byte unchanged in that case. -/
def decodeEscapes : List Nat → List Nat
  | [] => []
  | b :: s =>
    if b = 37 then
      match s with
      | h :: l :: s2 => (hexValue h * 16 + hexValue l) :: decodeEscapes s2
      | _ => b :: s
    else b :: decodeEscapes s

/-- DecodePathSegment of src/unnamed/part_001, equally percentDecode of
src/unnamed/part_000: validate all escapes, then decode.  (The fast path
returning the input when it holds no percent byte, and part_000's `n == 0`
early return, produce the same value as the decoding pass.) -/
def DecodePathSegment (s : List Nat) : Except (List Nat) (List Nat) :=
  match scanEscapes s with
  | some e => Except.error e
  | none => Except.ok (decodeEscapes s)

/-- percentDecode of src/unnamed/part_000 computes the same function. -/
def percentDecode (s : List Nat) : Except (List Nat) (List Nat) :=
  DecodePathSegment s

/-- A position i of s holds a well-formed percent escape: two hex digits
follow. -/
def goodEscAt (s : List Nat) (i : Nat) : Prop :=
  ∃ h l, s.get? (i + 1) = some h ∧ s.get? (i + 2) = some l ∧ isHex h ∧ isHex l

/-- The one-pass replacement relation described by the spec for a
successful decode: literal bytes are kept, each escape %XX becomes the
byte of hex value XX. -/
inductive Replaced : List Nat → List Nat → Prop
  | nil : Replaced [] []
  | lit {b : Nat} {s r : List Nat} : b ≠ 37 → Replaced s r → Replaced (b :: s) (b :: r)
  | esc {h l : Nat} {s r : List Nat} : isHex h → isHex l → Replaced s r →
      Replaced (37 :: h :: l :: s) ((hexValue h * 16 + hexValue l) :: r)

theorem isHex_ne_37 {b : Nat} (h : isHex b) : b ≠ 37 := by
  intro e; subst e; simp [isHex] at h

theorem goodEscAt_shift3 {h l : Nat} {s2 : List Nat} {n : Nat}
    (hg : goodEscAt s2 n) : goodEscAt (37 :: h :: l :: s2) (n + 3) := by
  obtain ⟨h1, l1, e1, e2, hx1, hx2⟩ := hg
  exact ⟨h1, l1, by simpa using e1, by simpa using e2, hx1, hx2⟩

theorem goodEscAt_shift1 {b : Nat} {s : List Nat} {n : Nat}
    (hg : goodEscAt s n) : goodEscAt (b :: s) (n + 1) := by
  obtain ⟨h1, l1, e1, e2, hx1, hx2⟩ := hg
  exact ⟨h1, l1, by simpa using e1, by simpa using e2, hx1, hx2⟩

theorem scanEscapes_cons_ne {b : Nat} {s : List Nat} (hb : b ≠ 37) :
    scanEscapes (b :: s) = scanEscapes s := by
  rw [scanEscapes.eq_def]
  simp [hb]

theorem scanEscapes_esc {h l : Nat} {s2 : List Nat} :
    scanEscapes (37 :: h :: l :: s2) =
      if isHex h && isHex l then scanEscapes s2 else some (37 :: h :: [l]) := rfl

theorem scanEscapes_one : scanEscapes [37] = some [37] := rfl

theorem scanEscapes_two {x : Nat} : scanEscapes (37 :: [x]) = some (37 :: [x]) := rfl

theorem scanEscapes_none_good :
    ∀ s : List Nat, scanEscapes s = none → ∀ i, s.get? i = some 37 → goodEscAt s i := by
  intro s
  induction s using scanEscapes.induct with
  | case1 => intro _ i h; simp at h
  | case2 h l s2 hhex ih =>
    intro hscan i hi
    rw [scanEscapes_esc, if_pos hhex] at hscan
    have hxh : isHex h := ((Bool.and_eq_true _ _).mp hhex).1
    have hxl : isHex l := ((Bool.and_eq_true _ _).mp hhex).2
    match i with
    | 0 => exact ⟨h, l, rfl, rfl, hxh, hxl⟩
    | 1 => simp only [List.get?] at hi; exact absurd hi (by simp [isHex_ne_37 hxh])
    | 2 => simp only [List.get?] at hi; exact absurd hi (by simp [isHex_ne_37 hxl])
    | (n + 3) => exact goodEscAt_shift3 (ih hscan n (by simpa using hi))
  | case3 h l s2 hhex =>
    intro hscan
    rw [scanEscapes_esc, if_neg hhex] at hscan
    exact absurd hscan (by simp)
  | case4 s hshape =>
    intro hscan
    match s, hshape with
    | [], _ => rw [scanEscapes_one] at hscan; exact absurd hscan (by simp)
    | [x], _ => rw [scanEscapes_two] at hscan; exact absurd hscan (by simp)
    | x :: y :: t, hs => exact absurd rfl (hs x y t)
  | case5 b s hb ih =>
    intro hscan i hi
    rw [scanEscapes_cons_ne hb] at hscan
    match i with
    | 0 => simp only [List.get?] at hi; exact absurd hi (by simp [hb])
    | (n + 1) => exact goodEscAt_shift1 (ih hscan n (by simpa using hi))

theorem scanEscapes_good_none :
    ∀ s : List Nat, (∀ i, s.get? i = some 37 → goodEscAt s i) → scanEscapes s = none := by
  intro s
  induction s using scanEscapes.induct with
  | case1 => intro _; rfl
  | case2 h l s2 hhex ih =>
    intro hg
    rw [scanEscapes_esc, if_pos hhex]
    refine ih fun n hn => ?_
    have := hg (n + 3) (by simpa using hn)
    obtain ⟨h1, l1, e1, e2, hx1, hx2⟩ := this
    exact ⟨h1, l1, by simpa using e1, by simpa using e2, hx1, hx2⟩
  | case3 h l s2 hhex =>
    intro hg
    obtain ⟨h1, l1, e1, e2, hx1, hx2⟩ := hg 0 rfl
    simp only [List.get?] at e1 e2
    cases e1; cases e2
    exact absurd (by simp [hx1, hx2]) hhex
  | case4 s hshape =>
    intro hg
    obtain ⟨h1, l1, e1, e2, hx1, hx2⟩ := hg 0 rfl
    match s, hshape with
    | [], _ => simp [List.get?] at e1
    | [x], _ => simp [List.get?] at e2
    | x :: y :: t, hs => exact absurd rfl (hs x y t)
  | case5 b s hb ih =>
    intro hg
    rw [scanEscapes_cons_ne hb]
    refine ih fun n hn => ?_
    have := hg (n + 1) (by simpa using hn)
    obtain ⟨h1, l1, e1, e2, hx1, hx2⟩ := this
    exact ⟨h1, l1, by simpa using e1, by simpa using e2, hx1, hx2⟩

theorem scanEscapes_some_spec :
    ∀ s : List Nat, ∀ e, scanEscapes s = some e →
      ∃ i, s.get? i = some 37 ∧ ¬ goodEscAt s i ∧ e = (s.drop i).take 3 := by
  intro s
  induction s using scanEscapes.induct with
  | case1 => intro e h; simp [scanEscapes] at h
  | case2 h l s2 hhex ih =>
    intro e hscan
    rw [scanEscapes_esc, if_pos hhex] at hscan
    obtain ⟨i, h1, h2, h3⟩ := ih e hscan
    refine ⟨i + 3, by simpa using h1, ?_, by simpa using h3⟩
    intro hgood
    obtain ⟨h1', l1', e1, e2, hx1, hx2⟩ := hgood
    exact h2 ⟨h1', l1', by simpa using e1, by simpa using e2, hx1, hx2⟩
  | case3 h l s2 hhex =>
    intro e hscan
    rw [scanEscapes_esc, if_neg hhex] at hscan
    refine ⟨0, rfl, ?_, by simpa using hscan.symm⟩
    rintro ⟨h1, l1, e1, e2, hx1, hx2⟩
    simp only [List.get?] at e1 e2
    cases e1; cases e2
    exact hhex (by simp [hx1, hx2])
  | case4 s hshape =>
    intro e hscan
    match s, hshape with
    | [], _ =>
      rw [scanEscapes_one] at hscan
      refine ⟨0, rfl, ?_, by simpa using hscan.symm⟩
      rintro ⟨h1, l1, e1, _⟩
      simp [List.get?] at e1
    | [x], _ =>
      rw [scanEscapes_two] at hscan
      refine ⟨0, rfl, ?_, by simpa using hscan.symm⟩
      rintro ⟨h1, l1, e1, e2, _⟩
      simp [List.get?] at e2
    | x :: y :: t, hs => exact absurd rfl (hs x y t)
  | case5 b s hb ih =>
    intro e hscan
    rw [scanEscapes_cons_ne hb] at hscan
    obtain ⟨i, h1, h2, h3⟩ := ih e hscan
    refine ⟨i + 1, by simpa using h1, ?_, by simpa using h3⟩
    intro hgood
    obtain ⟨h1', l1', e1, e2, hx1, hx2⟩ := hgood
    exact h2 ⟨h1', l1', by simpa using e1, by simpa using e2, hx1, hx2⟩

theorem decodeEscapes_no_percent :
    ∀ s : List Nat, ¬ 37 ∈ s → decodeEscapes s = s := by
  intro s
  induction s with
  | nil => intro _; rfl
  | cons b t ih =>
    intro hmem
    have hb : b ≠ 37 := fun e => hmem (by simp [e])
    rw [decodeEscapes.eq_def]
    simp only [if_neg hb]
    rw [ih fun m => hmem (by simp [m])]

theorem scanEscapes_no_percent :
    ∀ s : List Nat, ¬ 37 ∈ s → scanEscapes s = none := by
  intro s
  induction s with
  | nil => intro _; rfl
  | cons b t ih =>
    intro hmem
    have hb : b ≠ 37 := fun e => hmem (by simp [e])
    rw [scanEscapes_cons_ne hb]
    exact ih fun m => hmem (by simp [m])

theorem decodeEscapes_replaced :
    ∀ s : List Nat, scanEscapes s = none → Replaced s (decodeEscapes s) := by
  intro s
  induction s using scanEscapes.induct with
  | case1 => intro _; exact Replaced.nil
  | case2 h l s2 hhex ih =>
    intro hscan
    rw [scanEscapes_esc, if_pos hhex] at hscan
    have hxh : isHex h := ((Bool.and_eq_true _ _).mp hhex).1
    have hxl : isHex l := ((Bool.and_eq_true _ _).mp hhex).2
    have : decodeEscapes (37 :: h :: l :: s2) =
        (hexValue h * 16 + hexValue l) :: decodeEscapes s2 := rfl
    rw [this]
    exact Replaced.esc hxh hxl (ih hscan)
  | case3 h l s2 hhex =>
    intro hscan
    rw [scanEscapes_esc, if_neg hhex] at hscan
    exact absurd hscan (by simp)
  | case4 s hshape =>
    intro hscan
    match s, hshape with
    | [], _ => rw [scanEscapes_one] at hscan; exact absurd hscan (by simp)
    | [x], _ => rw [scanEscapes_two] at hscan; exact absurd hscan (by simp)
    | x :: y :: t, hs => exact absurd rfl (hs x y t)
  | case5 b s hb ih =>
    intro hscan
    rw [scanEscapes_cons_ne hb] at hscan
    have : decodeEscapes (b :: s) = b :: decodeEscapes s := by
      rw [decodeEscapes.eq_def]; simp [hb]
    rw [this]
    exact Replaced.lit hb (ih hscan)

theorem drop_of_get? {s : List Nat} {i : Nat} {a : Nat} (h : s.get? i = some a) :
    ∃ t, s.drop i = a :: t := by
  induction s generalizing i with
  | nil => simp at h
  | cons x xs ih =>
    match i with
    | 0 => simp only [List.get?] at h; cases h; exact ⟨xs, rfl⟩
    | (n + 1) =>
      simp only [List.get?] at h
      obtain ⟨t, ht⟩ := ih h
      exact ⟨t, by simpa using ht⟩

/-- C6: percent decoding fails exactly when some percent byte is not
followed by two hex digits, reporting the 1-to-3-byte substring starting
at that percent; on success it performs exactly the escape replacement,
and an input without a percent byte is returned unchanged
(DecodePathSegment in src/unnamed/part_001, percentDecode in
src/unnamed/part_000). -/
theorem c6_percent_decode_contract (s : List Nat) :
    ((∃ e, DecodePathSegment s = Except.error e) ↔
        ∃ i, s.get? i = some 37 ∧ ¬ goodEscAt s i) ∧
    (∀ e, DecodePathSegment s = Except.error e →
        ∃ i, s.get? i = some 37 ∧ ¬ goodEscAt s i ∧ e = (s.drop i).take 3 ∧
          e.head? = some 37 ∧ 1 ≤ e.length ∧ e.length ≤ 3) ∧
    (∀ r, DecodePathSegment s = Except.ok r → Replaced s r) ∧
    (¬ 37 ∈ s → DecodePathSegment s = Except.ok s) := by
  refine ⟨?_, ?_, ?_, ?_⟩
  · constructor
    · rintro ⟨e, he⟩
      unfold DecodePathSegment at he
      cases hscan : scanEscapes s with
      | none => rw [hscan] at he; simp at he
      | some e0 =>
        obtain ⟨i, h1, h2, _⟩ := scanEscapes_some_spec s e0 hscan
        exact ⟨i, h1, h2⟩
    · rintro ⟨i, h1, h2⟩
      cases hscan : scanEscapes s with
      | none => exact absurd (scanEscapes_none_good s hscan i h1) h2
      | some e0 =>
        exact ⟨e0, by unfold DecodePathSegment; rw [hscan]⟩
  · intro e he
    unfold DecodePathSegment at he
    cases hscan : scanEscapes s with
    | none => rw [hscan] at he; simp at he
    | some e0 =>
      rw [hscan] at he
      have he2 : e = e0 := (by simpa using he : e0 = e).symm
      rw [he2]
      obtain ⟨i, h1, h2, h3⟩ := scanEscapes_some_spec s e0 hscan
      obtain ⟨t, ht⟩ := drop_of_get? h1
      refine ⟨i, h1, h2, h3, ?_, ?_, ?_⟩
      · rw [h3, ht]; rfl
      · rw [h3, ht]; simp
      · rw [h3]; simpa using List.length_take_le 3 (s.drop i)
  · intro r hr
    unfold DecodePathSegment at hr
    cases hscan : scanEscapes s with
    | none =>
      rw [hscan] at hr
      cases hr
      exact decodeEscapes_replaced s hscan
    | some e0 => rw [hscan] at hr; simp at hr
  · intro hmem
    unfold DecodePathSegment
    rw [scanEscapes_no_percent s hmem, decodeEscapes_no_percent s hmem]

/-! ## Encode/decode round trip (C10) -/

theorem shouldEncode_37 : shouldEncode 37 = true := by decide

theorem isHex_upperHexDigit {n : Nat} (h : n < 16) : isHex (upperHexDigit n) = true := by
  interval_cases n <;> decide

theorem hexValue_upperHexDigit {n : Nat} (h : n < 16) : hexValue (upperHexDigit n) = n := by
  interval_cases n <;> decide

theorem upperHexDigit_ne_37 {n : Nat} (h : n < 16) : upperHexDigit n ≠ 37 := by
  interval_cases n <;> decide

theorem encode_roundtrip_parts :
    ∀ s : List Nat, (∀ b ∈ s, b < 256) →
      scanEscapes (EncodePathSegment s) = none ∧
        decodeEscapes (EncodePathSegment s) = s := by
  intro s
  induction s with
  | nil => intro _; exact ⟨rfl, rfl⟩
  | cons b t ih =>
    intro hlt
    have hb : b < 256 := hlt b (by simp)
    have ht := ih fun x hx => hlt x (by simp [hx])
    by_cases hse : shouldEncode b
    · have henc : EncodePathSegment (b :: t) =
          37 :: upperHexDigit (b / 16) :: upperHexDigit (b % 16) :: EncodePathSegment t := by
        rw [EncodePathSegment.eq_def]
        simp [hse]
      have hdiv : b / 16 < 16 := Nat.div_lt_of_lt_mul (by omega)
      have hmod : b % 16 < 16 := Nat.mod_lt _ (by omega)
      have hhex : (isHex (upperHexDigit (b / 16)) && isHex (upperHexDigit (b % 16))) = true := by
        rw [isHex_upperHexDigit hdiv, isHex_upperHexDigit hmod]; rfl
      constructor
      · rw [henc, scanEscapes_esc, if_pos hhex]; exact ht.1
      · rw [henc]
        have : decodeEscapes (37 :: upperHexDigit (b / 16) :: upperHexDigit (b % 16)
            :: EncodePathSegment t) =
            (hexValue (upperHexDigit (b / 16)) * 16 + hexValue (upperHexDigit (b % 16)))
              :: decodeEscapes (EncodePathSegment t) := rfl
        rw [this, hexValue_upperHexDigit hdiv, hexValue_upperHexDigit hmod, ht.2]
        have hb16 : b / 16 * 16 + b % 16 = b := by omega
        rw [hb16]
    · have hne : b ≠ 37 := fun e => hse (e ▸ shouldEncode_37)
      have henc : EncodePathSegment (b :: t) = b :: EncodePathSegment t := by
        rw [EncodePathSegment.eq_def]
        simp [hse]
      constructor
      · rw [henc, scanEscapes_cons_ne hne]; exact ht.1
      · rw [henc]
        have : decodeEscapes (b :: EncodePathSegment t) =
            b :: decodeEscapes (EncodePathSegment t) := by
          rw [decodeEscapes.eq_def]; simp [hne]
        rw [this, ht.2]

/-- C10: for every byte string, decoding the encoding succeeds and gives
back the original string (EncodePathSegment and DecodePathSegment of
src/unnamed/part_001). -/
theorem c10_encode_decode_roundtrip (s : List Nat) (hs : ∀ b ∈ s, b < 256) :
    DecodePathSegment (EncodePathSegment s) = Except.ok s := by
  obtain ⟨h1, h2⟩ := encode_roundtrip_parts s hs
  unfold DecodePathSegment
  rw [h1, h2]

/-- Witness for C10 at a concrete byte string containing a percent byte, a
pchar byte and two non-pchar bytes. -/
theorem c10_encode_decode_roundtrip_witness :
    DecodePathSegment (EncodePathSegment [37, 65, 255, 0]) = Except.ok [37, 65, 255, 0] :=
  c10_encode_decode_roundtrip [37, 65, 255, 0] (by decide)

/-! ## Pattern segments (src/parser.go, src/unnamed/part_000) -/

/-- partType of src/parser.go / src/unnamed/part_000. -/
inductive PartType where
  | staticPart
  | variablePart
  | wildcardPart
deriving DecidableEq, Repr

/-- part of src/parser.go / src/unnamed/part_000: one segment of a parsed
pattern (the value is the literal text or the variable name, empty for a
wildcard). -/
structure Part where
  typ : PartType
  val : List Char
deriving DecidableEq, Repr

/-- Error kinds of the pattern parsers, named as in the spec; the Go code
reports them as formatted error strings. -/
inductive PError where
  | missingLeadingSlash
  | emptySegment
  | misplacedBrace
  | wildcardNotLast
  | invalidVariableName
  | emptyVariableName
  | malformedEscape (sub : List Char)
  | doubleSeparator
  | unexpectedAfterVariable
  | unexpectedEof
deriving DecidableEq, Repr

/-- Char-level wrapper of the byte-level percent decoder, used by the
part_000 parser on path segments (a Char stands for one byte here; all
pattern bytes of interest are ASCII). -/
def percentDecodeC (s : List Char) : Except PError (List Char) :=
  match DecodePathSegment (s.map Char.toNat) with
  | Except.error e => Except.error (PError.malformedEscape (e.map Char.ofNat))
  | Except.ok r => Except.ok (r.map Char.ofNat)

/-- Splits a list on a separator; mirrors the index walk of the part_000
parse loop (`for index <= len(pattern)`), which yields count(sep)+1
segments, including empty ones. -/
def splitSep (sep : Char) : List Char → List (List Char)
  | [] => [[]]
  | c :: t =>
    if c = sep then [] :: splitSep sep t
    else
      match splitSep sep t with
      | [] => [[c]]
      | s :: ss => (c :: s) :: ss

/-- isLetter approximates Go's unicode.IsLetter; faithful on the ASCII
range, which is all the claims exercise. -/
def isLetter (c : Char) : Bool := c.isAlpha

/-- The variable-name check of the part_000 parse: first rune underscore or
letter, later runes may also be digits. -/
def validVarName (name : List Char) : Bool :=
  match name with
  | [] => false
  | c :: rest =>
    (c = '_' || isLetter c) && rest.all (fun r => r = '_' || isLetter r || r.isDigit)

/-- Per-segment classification of the part_000 parse (src/unnamed/part_000,
second version, lines 193-249).  `isLast` tells whether this is the final
segment (`index <= len(pattern)` in the source). -/
def classifySegment (sep : Char) (seg : List Char) (isLast : Bool) : Except PError Part :=
  match seg with
  | [] =>
    if sep = '.' then Except.error PError.emptySegment
    else if !isLast then Except.error PError.emptySegment
    else Except.ok ⟨PartType.staticPart, []⟩
  | '{' :: rest =>
    if (('{' :: rest).getLast?) ≠ some '}' then Except.error PError.misplacedBrace
    else
      match rest.dropLast with
      | [] => Except.error PError.emptyVariableName
      | ['*'] =>
        if !isLast then Except.error PError.wildcardNotLast
        else Except.ok ⟨PartType.wildcardPart, []⟩
      | name =>
        if validVarName name then Except.ok ⟨PartType.variablePart, name⟩
        else Except.error PError.invalidVariableName
  | _ =>
    if seg.contains '{' || seg.contains '}' then Except.error PError.misplacedBrace
    else if sep = '/' then
      match percentDecodeC seg with
      | Except.error e => Except.error e
      | Except.ok v => Except.ok ⟨PartType.staticPart, v⟩
    else Except.ok ⟨PartType.staticPart, seg⟩

/-- The segment loop of the part_000 parse. -/
def parseSegs (sep : Char) : List (List Char) → Except PError (List Part)
  | [] => Except.ok []
  | seg :: rest =>
    match classifySegment sep seg rest.isEmpty with
    | Except.error e => Except.error e
    | Except.ok p =>
      match parseSegs sep rest with
      | Except.error e => Except.error e
      | Except.ok ps => Except.ok (p :: ps)

/-- parse of src/unnamed/part_000 (second version, lines 182-251): for the
path namespace the pattern must begin with a slash, which is consumed;
then each separator-delimited segment is classified, with static path
segments percent decoded. -/
def parseP (pattern : List Char) (sep : Char) : Except PError (List Part) :=
  if sep = '/' then
    if pattern.head? = some '/' then parseSegs sep (splitSep sep (pattern.drop 1))
    else Except.error PError.missingLeadingSlash
  else parseSegs sep (splitSep sep pattern)

/-! ## The recursive-descent parser of src/parser.go -/

/-- The name loop of parseVariable (src/parser.go 180-191): consume name
runes until the closing brace; eof, the separator, or an invalid rune is
an error. -/
def parseVarName1 (sep : Char) (acc : List Char) : List Char → Except PError (List Char × List Char)
  | [] => Except.error PError.unexpectedEof
  | c :: rest =>
    if c = '}' then Except.ok (acc, rest)
    else if c = sep then Except.error PError.misplacedBrace
    else if c = '_' || isLetter c || c.isDigit then parseVarName1 sep (acc ++ [c]) rest
    else Except.error PError.invalidVariableName

/-- parseVariable of src/parser.go 165-192, applied to the input after the
opening brace; returns the parsed part and the remaining input after the
closing brace.  The wildcard case itself demands end of input right after
the brace. -/
def parseVar1 (sep : Char) : List Char → Except PError (Part × List Char)
  | [] => Except.error PError.unexpectedEof
  | '*' :: rest =>
    match rest with
    | '}' :: rest2 =>
      match rest2 with
      | [] => Except.ok (⟨PartType.wildcardPart, []⟩, [])
      | _ => Except.error PError.wildcardNotLast
    | _ => Except.error PError.misplacedBrace
  | c :: rest =>
    if c = '_' || isLetter c then
      match parseVarName1 sep [c] rest with
      | Except.error e => Except.error e
      | Except.ok (name, rem) => Except.ok (⟨PartType.variablePart, name⟩, rem)
    else Except.error PError.invalidVariableName

/-- The static-segment loop of parseParts (src/parser.go 148-159): consume
until separator or end of input; a brace inside the segment is an error.
Returns the static text and the input after the separator, if one was
seen. -/
def scanStatic1 (sep : Char) (acc : List Char) : List Char → Except PError (List Char × Option (List Char))
  | [] => Except.ok (acc, none)
  | c :: rest =>
    if c = sep then Except.ok (acc, some rest)
    else if c = '{' || c = '}' then Except.error PError.misplacedBrace
    else scanStatic1 sep (acc ++ [c]) rest

/-- parseParts of src/parser.go 122-160, with the input length as
structural fuel (every recursive call consumes at least the separator, so
the fuel is never exhausted). -/
def parseParts1 (sep : Char) : Nat → List Char → Except PError (List Part)
  | 0, _ => Except.error PError.unexpectedEof
  | _ + 1, [] => Except.ok [⟨PartType.staticPart, []⟩]
  | fuel + 1, c :: rest =>
    if c = sep then Except.error PError.doubleSeparator
    else if c = '{' then
      match parseVar1 sep rest with
      | Except.error e => Except.error e
      | Except.ok (p, rem) =>
        match rem with
        | [] => Except.ok [p]
        | r :: rem2 =>
          if r = sep then
            match parseParts1 sep fuel rem2 with
            | Except.error e => Except.error e
            | Except.ok ps => Except.ok (p :: ps)
          else Except.error PError.unexpectedAfterVariable
    else
      match scanStatic1 sep [c] rest with
      | Except.error e => Except.error e
      | Except.ok (txt, none) => Except.ok [⟨PartType.staticPart, txt⟩]
      | Except.ok (txt, some rem) =>
        match parseParts1 sep fuel rem with
        | Except.error e => Except.error e
        | Except.ok ps => Except.ok (⟨PartType.staticPart, txt⟩ :: ps)

/-- parse of src/parser.go 24-39: a leading separator, if present, is
stripped (with no error when it is absent); then the parts are parsed.
Percent escapes are not decoded by this parser. -/
def parseV1 (s : List Char) (sep : Char) : Except PError (List Part) :=
  let s2 := match s with
    | c :: rest => if c = sep then rest else c :: rest
    | [] => []
  parseParts1 sep (s2.length + 1) s2

/-- C7: for the path namespace the whole pattern must begin with the
separator, otherwise parsing fails with MissingLeadingSlash and produces
no parts.  This holds for the parse of src/unnamed/part_000 (general
statement below) and is expected by the repository's own test table
(parser_test.go lists the input "junk" as a parse error), but the older
parse of src/parser.go silently accepts such an input, returning a static
part — the failing input of the recorded code bug. -/
theorem c7_missing_leading_slash :
    (∀ s : List Char, s.head? = some '/' ∨
        parseP s '/' = Except.error PError.missingLeadingSlash) ∧
    parseP "junk".data '/' = Except.error PError.missingLeadingSlash ∧
    parseV1 "junk".data '/' = Except.ok [⟨PartType.staticPart, "junk".data⟩] := by
  refine ⟨?_, by rfl, by rfl⟩
  intro s
  by_cases hs : s.head? = some '/'
  · exact Or.inl hs
  · right
    unfold parseP
    simp [hs]

/-! ## The trie (src/tree.go, src/matcher.go) -/

/-- variableKey of src/tree.go / src/matcher.go. -/
def variableKey : List Char := ['{', 'v', '}']

/-- wildcardKey of src/tree.go / src/matcher.go (the source really uses an
opening parenthesis). -/
def wildcardKey : List Char := ['(', '*', '}']

/-- The edge-key selection of every newEdge in src/tree.go and
src/matcher.go: a static part is keyed by its value, a variable part by
the variable sentinel, a wildcard part by the wildcard sentinel. -/
def edgeKey (p : Part) : List Char :=
  match p.typ with
  | PartType.staticPart => p.val
  | PartType.variablePart => variableKey
  | PartType.wildcardPart => wildcardKey

/-- Go map lookup on an association list (edges keep their insertion
order; keys are unique by construction). -/
def lookupE {α : Type} : List (List Char × α) → List Char → Option α
  | [], _ => none
  | (k, v) :: t, key => if k = key then some v else lookupE t key

/-- Go map assignment on an association list. -/
def updateAssoc {α : Type} : List (List Char × α) → List Char → α → List (List Char × α)
  | [], key, v => [(key, v)]
  | (k, w) :: t, key, v => if k = key then (k, v) :: t else (k, w) :: updateAssoc t key v

/-- A Route (src/unnamed/part_008, second version): identified here by its
pattern string, the only attribute the embedded operations consult. -/
structure Route where
  pattern : List Char
deriving DecidableEq, Repr

/-- pathMatcher of src/matcher.go (equally the node of src/tree.go at path
level): an optional Route leaf and keyed edges. -/
inductive PathMatcher where
  | mk : Option Route → List (List Char × PathMatcher) → PathMatcher

def PathMatcher.leaf : PathMatcher → Option Route
  | .mk l _ => l

def PathMatcher.edges : PathMatcher → List (List Char × PathMatcher)
  | .mk _ es => es

def newPathMatcher : PathMatcher := .mk none []

/-- matchPath of src/tree.go 107-131, equally pathMatcher.match of
src/matcher.go 115-139 and node.edge of src/unnamed/part_002: try the
static edge, then the variable edge (each requiring, when segments
remain, that the recursive descent succeeds), then the wildcard edge,
which is returned unconditionally.  The request path string is given as
its slash-separated segment list (one trailing empty segment dropped, as
the IndexByte splitting of the source does). -/
def matchPath : PathMatcher → List (List Char) → Option PathMatcher
  | _, [] => none
  | n, [s] =>
    match lookupE n.edges s with
    | some e => some e
    | none =>
      match lookupE n.edges variableKey with
      | some e => some e
      | none => lookupE n.edges wildcardKey
  | n, s :: r :: rs =>
    match (match lookupE n.edges s with
           | some e => matchPath e (r :: rs)
           | none => none) with
    | some x => some x
    | none =>
      match (match lookupE n.edges variableKey with
             | some e => matchPath e (r :: rs)
             | none => none) with
      | some x => some x
      | none => lookupE n.edges wildcardKey

/-- The node newEdge of src/matcher.go reaches for the given parts, on the
tree as it is (without creating the missing part). -/
def nodeAt : PathMatcher → List Part → Option PathMatcher
  | n, [] => some n
  | n, p :: ps =>
    match lookupE n.edges (edgeKey p) with
    | some e => nodeAt e ps
    | none => none

/-- The leaf of the node newEdge reaches for the given parts. -/
def leafAt (n : PathMatcher) (ps : List Part) : Option Route :=
  match nodeAt n ps with
  | some e => e.leaf
  | none => none

/-- pathMatcher.newEdge of src/matcher.go 142-159 in pure form: walk the
parts, creating missing edges, and transform the leaf of the final node
by f. -/
def edgeInsert : PathMatcher → List Part → (Option Route → Option Route) → PathMatcher
  | n, [], f => .mk (f n.leaf) n.edges
  | n, p :: ps, f =>
    let key := edgeKey p
    let child := (lookupE n.edges key).getD newPathMatcher
    .mk n.leaf (updateAssoc n.edges key (edgeInsert child ps f))

/-- Registration errors: a parse failure, or the duplicate-pattern panic
of route (src/unnamed/part_008 line 343) carrying the existing pattern. -/
inductive RegError where
  | parse (e : PError)
  | duplicate (existing : List Char)
deriving DecidableEq, Repr

/-- The leaf handling of route (src/unnamed/part_008, second version,
lines 336-346) at the end node the newEdge walk reaches: an empty leaf is
bound to a fresh Route for the pattern; an existing leaf with the same
pattern string is returned unchanged; an existing leaf with a different
pattern is the duplicate-pattern panic.  When the leaf already exists the
whole edge chain pre-existed, so newEdge created nothing and the tree is
returned unchanged. -/
def routeForPath (pm : PathMatcher) (parts : List Part) (pat : List Char) :
    PathMatcher × Except RegError Route :=
  match leafAt pm parts with
  | some r =>
    if r.pattern = pat then (pm, Except.ok r)
    else (pm, Except.error (RegError.duplicate r.pattern))
  | none => (edgeInsert pm parts (fun _ => some ⟨pat⟩), Except.ok ⟨pat⟩)

/-- matcherForPath of src/matcher.go 233-242 combined with the route leaf
handling: an empty path inserts a single wildcard edge, otherwise the
path is parsed (a parse failure is the Go panic: no mutation at this
level). -/
def matcherForPathR (pm : PathMatcher) (path : List Char) (pat : List Char) :
    PathMatcher × Except RegError Route :=
  if path = [] then routeForPath pm [⟨PartType.wildcardPart, []⟩] pat
  else
    match parseV1 path '/' with
    | Except.error e => (pm, Except.error (RegError.parse e))
    | Except.ok parts => routeForPath pm parts pat

/-- hostMatcher of src/matcher.go 41-44: an optional path-trie leaf and
keyed edges, one per DNS label. -/
inductive HostMatcher where
  | mk : Option PathMatcher → List (List Char × HostMatcher) → HostMatcher

def HostMatcher.leaf : HostMatcher → Option PathMatcher
  | .mk l _ => l

def HostMatcher.edges : HostMatcher → List (List Char × HostMatcher)
  | .mk _ es => es

def newHostMatcher : HostMatcher := .mk none []

/-- hostMatcher.newEdge of src/matcher.go 81-98 in pure form: walk the
parts, creating missing edges, and rewrite the final node with f, whose
result (new node and registration result) is threaded back. -/
def hmUpdate : HostMatcher → List Part →
    (HostMatcher → HostMatcher × Except RegError Route) →
    HostMatcher × Except RegError Route
  | n, [], f => f n
  | n, p :: ps, f =>
    let key := edgeKey p
    let child := (lookupE n.edges key).getD newHostMatcher
    let r := hmUpdate child ps f
    (.mk n.leaf (updateAssoc n.edges key r.1), r.2)

/-- The action matcherForHost performs at the end node of the host walk
(src/matcher.go 225-230): take the node's path trie, creating a fresh one
when it has none, register the path inside it, and store the updated trie
back as the node's leaf. -/
def hostLeafAct (path pat : List Char) (en : HostMatcher) :
    HostMatcher × Except RegError Route :=
  let pm0 := en.leaf.getD newPathMatcher
  let r := matcherForPathR pm0 path pat
  (.mk (some r.1) en.edges, r.2)

/-- matcherForHost of src/matcher.go 217-231 combined with the path level:
an empty host inserts a single wildcard edge, otherwise the host is
parsed with the dot separator; the end node gets a fresh path trie as its
leaf when it has none, and the path is registered inside that leaf.  A
host parse failure is the Go panic: this level is left unchanged. -/
def matcherForHostR (hm : HostMatcher) (host path pat : List Char) :
    HostMatcher × Except RegError Route :=
  if host = [] then hmUpdate hm [⟨PartType.wildcardPart, []⟩] (hostLeafAct path pat)
  else
    match parseV1 host '.' with
    | Except.error e => (hm, Except.error (RegError.parse e))
    | Except.ok parts => hmUpdate hm parts (hostLeafAct path pat)

/-- schemeMatcher of src/matcher.go 19: a map from scheme to host trie. -/
def SchemeMatcher : Type := List (List Char × HostMatcher)

/-- matcherForScheme of src/matcher.go 207-215: an empty scheme uses the
wildcard key; a missing entry starts from a fresh host matcher. -/
def matcherForSchemeR (sm : SchemeMatcher) (scheme host path pat : List Char) :
    SchemeMatcher × Except RegError Route :=
  let key := if scheme = [] then wildcardKey else scheme
  let hm0 := (lookupE sm key).getD newHostMatcher
  let r := matcherForHostR hm0 host path pat
  (updateAssoc sm key r.1, r.2)

/-- toSchemeMatcher of src/matcher.go 100-102. -/
def HostMatcher.toSchemeMatcher (hm : HostMatcher) : SchemeMatcher :=
  [(wildcardKey, hm)]

/-- toHostMatcher of src/matcher.go 165-170: a wildcard edge whose node
holds the previous path trie as its leaf. -/
def PathMatcher.toHostMatcher (pm : PathMatcher) : HostMatcher :=
  .mk none [(wildcardKey, .mk (some pm) [])]

/-- toSchemeMatcher of src/matcher.go 161-163. -/
def PathMatcher.toSchemeMatcher (pm : PathMatcher) : SchemeMatcher :=
  pm.toHostMatcher.toSchemeMatcher

/-- The matcher interface value held by the router: one of the three trie
shapes (src/matcher.go 13-15). -/
inductive MatcherU where
  | sm : SchemeMatcher → MatcherU
  | hm : HostMatcher → MatcherU
  | pm : PathMatcher → MatcherU

/-- The conversion switch of newPattern (src/matcher.go 180-193). -/
def convertU (m : MatcherU) (scheme host : List Char) : MatcherU :=
  match m with
  | .sm s => .sm s
  | .hm h => if scheme ≠ [] then .sm h.toSchemeMatcher else .hm h
  | .pm p =>
    if scheme ≠ [] then .sm p.toSchemeMatcher
    else if host ≠ [] then .hm p.toHostMatcher
    else .pm p

/-- Whether the conversion switch of newPattern produced a new wrapper. -/
def convertedU (m : MatcherU) (scheme host : List Char) : Bool :=
  match m with
  | .sm _ => false
  | .hm _ => scheme ≠ []
  | .pm _ => scheme ≠ [] || host ≠ []

/-- The insertion dispatch of newPattern (src/matcher.go 195-204). -/
def insertU (m : MatcherU) (scheme host path pat : List Char) :
    MatcherU × Except RegError Route :=
  match m with
  | .sm s =>
    let r := matcherForSchemeR s scheme host path pat
    (.sm r.1, r.2)
  | .hm h =>
    let r := matcherForHostR h host path pat
    (.hm r.1, r.2)
  | .pm p =>
    let r := matcherForPathR p path pat
    (.pm r.1, r.2)

/-- route of src/unnamed/part_008 (second version, lines 336-346) over
newPattern of src/matcher.go: the pattern string is given pre-split into
scheme, host and path (the url.Parse of the standard library performs
this split in the source).  On a parse failure the Go code panics inside
newPattern, before `r.matcher = m` runs, so when the conversion switch
produced a new wrapper the router keeps the old, untouched matcher, and
without a conversion the mutations already made in place remain visible.
The duplicate-pattern panic happens after `r.matcher = m`, so on a
duplicate error the router keeps the new matcher, wrapper included. -/
def routeU (m : MatcherU) (scheme host path pat : List Char) :
    MatcherU × Except RegError Route :=
  let m2 := convertU m scheme host
  let r := insertU m2 scheme host path pat
  match r.2 with
  | Except.error (RegError.parse e) =>
      (if convertedU m scheme host then m else r.1, Except.error (RegError.parse e))
  | Except.error (RegError.duplicate p) => (r.1, Except.error (RegError.duplicate p))
  | Except.ok route => (r.1, Except.ok route)

/-! ## The lookup side of src/matcher.go (first version, lines 21-78) -/

/-- hostMatcher.match of src/matcher.go 46-78: labels are consumed left to
right; at each one try the static edge, then the variable edge (at the
last label both require a bound path trie, earlier they recurse), then
the wildcard edge, which starts path matching immediately when it has a
bound path trie. -/
def matchHM : HostMatcher → List (List Char) → List (List Char) → Option PathMatcher
  | _, [], _ => none
  | hm, [lab], path =>
    match (match lookupE hm.edges lab with
           | some e =>
             match e.leaf with
             | some pmx => matchPath pmx path
             | none => none
           | none => none) with
    | some r => some r
    | none =>
      match (match lookupE hm.edges variableKey with
             | some e =>
               match e.leaf with
               | some pmx => matchPath pmx path
               | none => none
             | none => none) with
      | some r => some r
      | none =>
        match lookupE hm.edges wildcardKey with
        | some e =>
          match e.leaf with
          | some pmx => matchPath pmx path
          | none => none
        | none => none
  | hm, lab :: l2 :: ls, path =>
    match (match lookupE hm.edges lab with
           | some e => matchHM e (l2 :: ls) path
           | none => none) with
    | some r => some r
    | none =>
      match (match lookupE hm.edges variableKey with
             | some e => matchHM e (l2 :: ls) path
             | none => none) with
      | some r => some r
      | none =>
        match lookupE hm.edges wildcardKey with
        | some e =>
          match e.leaf with
          | some pmx => matchPath pmx path
          | none => none
        | none => none

/-- schemeMatcher.match of src/matcher.go 21-33: the literal scheme edge
first, then the wildcard edge. -/
def matchSM (sm : SchemeMatcher) (scheme : List Char) (host path : List (List Char)) :
    Option PathMatcher :=
  match (match lookupE sm scheme with
         | some h => matchHM h host path
         | none => none) with
  | some r => some r
  | none =>
    match lookupE sm wildcardKey with
    | some h => matchHM h host path
    | none => none

/-! ## C4: promotion preserves reachability -/

theorem variableKey_ne_wildcardKey : variableKey ≠ wildcardKey := by decide

theorem matchHM_leafless_empty (l : Option PathMatcher) (host path : List (List Char)) :
    matchHM (.mk l []) host path = none := by
  match host with
  | [] => rfl
  | [lab] => simp [matchHM, HostMatcher.edges, lookupE]
  | lab :: l2 :: ls => simp [matchHM, HostMatcher.edges, lookupE]

theorem matchHM_toHostMatcher (p : PathMatcher) (host path : List (List Char))
    (hh : host ≠ []) : matchHM p.toHostMatcher host path = matchPath p path := by
  have hvw : ¬ wildcardKey = variableKey := by decide
  match host with
  | [] => exact absurd rfl hh
  | lab :: rest =>
    by_cases hl : lab = wildcardKey
    · subst hl
      cases rest with
      | nil =>
        cases hmp : matchPath p path <;>
          simp [matchHM, PathMatcher.toHostMatcher, HostMatcher.edges, HostMatcher.leaf,
            lookupE, hvw, hmp]
      | cons r rs =>
        cases hmp : matchPath p path <;>
          simp [matchHM, PathMatcher.toHostMatcher, HostMatcher.edges, HostMatcher.leaf,
            lookupE, hvw, hmp, matchHM_leafless_empty]
    · have hlw : ¬ wildcardKey = lab := fun e => hl e.symm
      cases rest with
      | nil =>
        cases hmp : matchPath p path <;>
          simp [matchHM, PathMatcher.toHostMatcher, HostMatcher.edges, HostMatcher.leaf,
            lookupE, hvw, hlw, hmp]
      | cons r rs =>
        cases hmp : matchPath p path <;>
          simp [matchHM, PathMatcher.toHostMatcher, HostMatcher.edges, HostMatcher.leaf,
            lookupE, hvw, hlw, hmp, matchHM_leafless_empty]

theorem matchSM_toSchemeMatcher (h : HostMatcher) (scheme : List Char)
    (host path : List (List Char)) :
    matchSM h.toSchemeMatcher scheme host path = matchHM h host path := by
  by_cases hs : wildcardKey = scheme
  · cases hmm : matchHM h host path <;>
      simp [matchSM, HostMatcher.toSchemeMatcher, lookupE, hs, hmm]
  · cases hmm : matchHM h host path <;>
      simp [matchSM, HostMatcher.toSchemeMatcher, lookupE, hs, hmm]

/-- C4: promotion preserves reachability.  Wrapping a bare path trie with
toHostMatcher (src/matcher.go 165-170), or a host trie with
toSchemeMatcher (src/matcher.go 100-102), re-parents the existing trie
under a wildcard edge, and every (scheme, host, path) triple afterwards
resolves exactly as before; in particular every triple resolving to a
leaf before the promotion resolves to the same leaf after it. -/
theorem c4_promotion_preserves_reachability :
    (∀ (p : PathMatcher) (host path : List (List Char)), host ≠ [] →
        matchHM p.toHostMatcher host path = matchPath p path) ∧
    (∀ (h : HostMatcher) (scheme : List Char) (host path : List (List Char)),
        matchSM h.toSchemeMatcher scheme host path = matchHM h host path) ∧
    (∀ (p : PathMatcher) (scheme : List Char) (host path : List (List Char))
        (leaf : PathMatcher), host ≠ [] → matchPath p path = some leaf →
          matchSM p.toSchemeMatcher scheme host path = some leaf) := by
  refine ⟨matchHM_toHostMatcher, matchSM_toSchemeMatcher, ?_⟩
  intro p scheme host path leaf hh hm
  rw [PathMatcher.toSchemeMatcher, matchSM_toSchemeMatcher,
    matchHM_toHostMatcher p host path hh, hm]

/-! ## C1: priority and backtracking of the path trie lookup -/

/-- A structural descent through the trie consuming the request segments,
exactly as matchPath may take it: a static edge by the literal segment, a
variable edge for any one segment, a wildcard edge consuming the whole
remainder.  The reached node is the one matchPath would return for that
choice of edges. -/
inductive Descends : PathMatcher → List (List Char) → PathMatcher → Prop
  | lastStatic {n e : PathMatcher} {s : List Char} :
      lookupE n.edges s = some e → Descends n [s] e
  | lastVar {n e : PathMatcher} {s : List Char} :
      lookupE n.edges variableKey = some e → Descends n [s] e
  | lastWild {n e : PathMatcher} {s : List Char} :
      lookupE n.edges wildcardKey = some e → Descends n [s] e
  | stepStatic {n e e2 : PathMatcher} {s r : List Char} {rs : List (List Char)} :
      lookupE n.edges s = some e → Descends e (r :: rs) e2 → Descends n (s :: r :: rs) e2
  | stepVar {n e e2 : PathMatcher} {s r : List Char} {rs : List (List Char)} :
      lookupE n.edges variableKey = some e → Descends e (r :: rs) e2 →
        Descends n (s :: r :: rs) e2
  | stepWild {n e : PathMatcher} {s r : List Char} {rs : List (List Char)} :
      lookupE n.edges wildcardKey = some e → Descends n (s :: r :: rs) e

theorem matchPath_last_eq (n : PathMatcher) (s : List Char) :
    matchPath n [s] =
      match lookupE n.edges s with
      | some e => some e
      | none =>
        match lookupE n.edges variableKey with
        | some e => some e
        | none => lookupE n.edges wildcardKey := rfl

theorem matchPath_step_eq (n : PathMatcher) (s r : List Char) (rs : List (List Char)) :
    matchPath n (s :: r :: rs) =
      match (match lookupE n.edges s with
             | some e => matchPath e (r :: rs)
             | none => none) with
      | some x => some x
      | none =>
        match (match lookupE n.edges variableKey with
               | some e => matchPath e (r :: rs)
               | none => none) with
        | some x => some x
        | none => lookupE n.edges wildcardKey := rfl

theorem matchPath_sound :
    ∀ (segs : List (List Char)) (n e : PathMatcher),
      matchPath n segs = some e → Descends n segs e := by
  intro segs
  induction segs with
  | nil => intro n e h; simp [matchPath] at h
  | cons s rest ih =>
    intro n e h
    cases rest with
    | nil =>
      rw [matchPath_last_eq] at h
      cases hst : lookupE n.edges s with
      | some e1 =>
        simp only [hst] at h
        cases h
        exact Descends.lastStatic hst
      | none =>
        simp only [hst] at h
        cases hv : lookupE n.edges variableKey with
        | some e2 =>
          simp only [hv] at h
          cases h
          exact Descends.lastVar hv
        | none =>
          simp only [hv] at h
          exact Descends.lastWild h
    | cons r rs =>
      rw [matchPath_step_eq] at h
      cases hst : lookupE n.edges s with
      | some e1 =>
        simp only [hst] at h
        cases hm1 : matchPath e1 (r :: rs) with
        | some x =>
          simp only [hm1] at h
          cases h
          exact Descends.stepStatic hst (ih e1 e hm1)
        | none =>
          simp only [hm1] at h
          cases hv : lookupE n.edges variableKey with
          | some e2 =>
            simp only [hv] at h
            cases hm2 : matchPath e2 (r :: rs) with
            | some x =>
              simp only [hm2] at h
              cases h
              exact Descends.stepVar hv (ih e2 e hm2)
            | none =>
              simp only [hm2] at h
              exact Descends.stepWild h
          | none =>
            simp only [hv] at h
            exact Descends.stepWild h
      | none =>
        simp only [hst] at h
        cases hv : lookupE n.edges variableKey with
        | some e2 =>
          simp only [hv] at h
          cases hm2 : matchPath e2 (r :: rs) with
          | some x =>
            simp only [hm2] at h
            cases h
            exact Descends.stepVar hv (ih e2 e hm2)
          | none =>
            simp only [hm2] at h
            exact Descends.stepWild h
        | none =>
          simp only [hv] at h
          exact Descends.stepWild h

theorem matchPath_complete :
    ∀ {n : PathMatcher} {segs : List (List Char)} {e : PathMatcher},
      Descends n segs e → matchPath n segs ≠ none := by
  intro n segs e hd
  induction hd with
  | lastStatic hl =>
    rename_i n e s
    rw [matchPath_last_eq]
    simp [hl]
  | lastVar hl =>
    rename_i n e s
    rw [matchPath_last_eq]
    cases hst : lookupE n.edges s <;> simp [hl]
  | lastWild hl =>
    rename_i n e s
    rw [matchPath_last_eq]
    cases hst : lookupE n.edges s with
    | some e1 => simp
    | none => cases hv : lookupE n.edges variableKey <;> simp [hl]
  | stepStatic hl hd2 ih =>
    rename_i n e e2 s r rs
    rw [matchPath_step_eq]
    simp only [hl]
    cases hm1 : matchPath e (r :: rs) with
    | some x => simp
    | none => exact absurd hm1 ih
  | stepVar hl hd2 ih =>
    rename_i n e e2 s r rs
    rw [matchPath_step_eq]
    cases hst : lookupE n.edges s with
    | some e1 =>
      simp only [hst]
      cases hm1 : matchPath e1 (r :: rs) with
      | some x => simp
      | none =>
        simp only [hm1, hl]
        cases hm2 : matchPath e (r :: rs) with
        | some x => simp
        | none => exact absurd hm2 ih
    | none =>
      simp only [hst, hl]
      cases hm2 : matchPath e (r :: rs) with
      | some x => simp
      | none => exact absurd hm2 ih
  | stepWild hl =>
    rename_i n e s r rs
    rw [matchPath_step_eq]
    cases hst : lookupE n.edges s with
    | some e1 =>
      simp only [hst]
      cases hm1 : matchPath e1 (r :: rs) with
      | some x => simp
      | none =>
        simp only [hm1]
        cases hv : lookupE n.edges variableKey with
        | some e2 =>
          simp only [hv]
          cases hm2 : matchPath e2 (r :: rs) with
          | some x => simp
          | none => simp [hm2, hl]
        | none => simp [hl]
    | none =>
      simp only [hst]
      cases hv : lookupE n.edges variableKey with
      | some e2 =>
        simp only [hv]
        cases hm2 : matchPath e2 (r :: rs) with
        | some x => simp
        | none => simp [hm2, hl]
      | none => simp [hl]

theorem matchPath_static_last {n e : PathMatcher} {s : List Char}
    (h : lookupE n.edges s = some e) : matchPath n [s] = some e := by
  rw [matchPath_last_eq]
  simp [h]

theorem matchPath_static_step {n e x : PathMatcher} {s r : List Char} {rs : List (List Char)}
    (h : lookupE n.edges s = some e) (hm : matchPath e (r :: rs) = some x) :
    matchPath n (s :: r :: rs) = some x := by
  rw [matchPath_step_eq]
  simp [h, hm]

theorem matchPath_var_last {n e : PathMatcher} {s : List Char}
    (hs : lookupE n.edges s = none) (hv : lookupE n.edges variableKey = some e) :
    matchPath n [s] = some e := by
  rw [matchPath_last_eq]
  simp [hs, hv]

theorem matchPath_var_step {n e x : PathMatcher} {s r : List Char} {rs : List (List Char)}
    (hs : lookupE n.edges s = none) (hv : lookupE n.edges variableKey = some e)
    (hm : matchPath e (r :: rs) = some x) :
    matchPath n (s :: r :: rs) = some x := by
  rw [matchPath_step_eq]
  simp [hs, hv, hm]

theorem matchPath_var_after_static {n e1 e x : PathMatcher} {s r : List Char}
    {rs : List (List Char)}
    (hs : lookupE n.edges s = some e1) (hm1 : matchPath e1 (r :: rs) = none)
    (hv : lookupE n.edges variableKey = some e) (hm : matchPath e (r :: rs) = some x) :
    matchPath n (s :: r :: rs) = some x := by
  rw [matchPath_step_eq]
  simp [hs, hm1, hv, hm]

theorem matchPath_wild_last {n : PathMatcher} {s : List Char}
    (hs : lookupE n.edges s = none) (hv : lookupE n.edges variableKey = none) :
    matchPath n [s] = lookupE n.edges wildcardKey := by
  rw [matchPath_last_eq]
  simp [hs, hv]

theorem matchPath_wild_step {n : PathMatcher} {s r : List Char} {rs : List (List Char)}
    (hs : lookupE n.edges s = none) (hv : lookupE n.edges variableKey = none) :
    matchPath n (s :: r :: rs) = lookupE n.edges wildcardKey := by
  rw [matchPath_step_eq]
  simp [hs, hv]

theorem matchPath_wild_after_var {n e : PathMatcher} {s r : List Char} {rs : List (List Char)}
    (hs : lookupE n.edges s = none) (hv : lookupE n.edges variableKey = some e)
    (hm : matchPath e (r :: rs) = none) :
    matchPath n (s :: r :: rs) = lookupE n.edges wildcardKey := by
  rw [matchPath_step_eq]
  simp [hs, hv, hm]

/-- The Route read off a matched node, as Router.match of
src/unnamed/part_008 (second version, lines 386-392) does. -/
def matchLeaf (n : PathMatcher) (segs : List (List Char)) : Option Route :=
  match matchPath n segs with
  | some e => e.leaf
  | none => none

/-! ### The mpath matcher (src/matchers/mpath/mpath.go) -/

/-- node of src/matchers/mpath/mpath.go 124-129: static edges, one
variable edge, one wildcard edge, an optional leaf. -/
inductive MNode where
  | mk : List (List Char × MNode) → Option MNode → Option MNode → Option Route → MNode

def MNode.edges : MNode → List (List Char × MNode)
  | .mk es _ _ _ => es

def MNode.vEdge : MNode → Option MNode
  | .mk _ v _ _ => v

def MNode.wEdge : MNode → Option MNode
  | .mk _ _ w _ => w

def MNode.leaf : MNode → Option Route
  | .mk _ _ _ l => l

def mnodeEmpty : MNode := .mk [] none none none

/-- node.edge of src/matchers/mpath/mpath.go 132-153 in pure form: walk
the parsed segments (a leading colon marks a variable, a sole star the
wildcard, which ends the walk), creating missing nodes, and transform the
leaf at the final node by f. -/
def medgeInsert : MNode → List (List Char) → (Option Route → Option Route) → MNode
  | n, [], f => .mk n.edges n.vEdge n.wEdge (f n.leaf)
  | n, seg :: rest, f =>
    if seg.head? = some ':' then
      let child := n.vEdge.getD mnodeEmpty
      .mk n.edges (some (medgeInsert child rest f)) n.wEdge n.leaf
    else if seg.head? = some '*' then
      let child := n.wEdge.getD mnodeEmpty
      .mk n.edges n.vEdge (some (.mk child.edges child.vEdge child.wEdge (f child.leaf))) n.leaf
    else
      let child := (lookupE n.edges seg).getD mnodeEmpty
      .mk (updateAssoc n.edges seg (medgeInsert child rest f)) n.vEdge n.wEdge n.leaf

/-- The node node.edge would reach on the tree as it is. -/
def mnodeAt : MNode → List (List Char) → Option MNode
  | n, [] => some n
  | n, seg :: rest =>
    if seg.head? = some ':' then
      match n.vEdge with
      | some e => mnodeAt e rest
      | none => none
    else if seg.head? = some '*' then n.wEdge
    else
      match lookupE n.edges seg with
      | some e => mnodeAt e rest
      | none => none

/-- Route of src/matchers/mpath/mpath.go 39-51 after parsing: reach the
edge for the segments; an existing leaf is the duplicate error (also for
a byte-identical re-registration), otherwise a fresh Route is bound. -/
def mroute (m : MNode) (segs : List (List Char)) (pat : List Char) :
    MNode × Except RegError Route :=
  match mnodeAt m segs with
  | some en =>
    match en.leaf with
    | some r => (m, Except.error (RegError.duplicate r.pattern))
    | none => (medgeInsert m segs (fun _ => some ⟨pat⟩), Except.ok ⟨pat⟩)
  | none => (medgeInsert m segs (fun _ => some ⟨pat⟩), Except.ok ⟨pat⟩)

/-- node.match of src/matchers/mpath/mpath.go 155-174: for each request
segment take the static edge if present, else the variable edge, else
return the wildcard edge — with no backtracking whatsoever. -/
def mmatch : MNode → List (List Char) → Option MNode
  | n, [] => some n
  | n, p :: rest =>
    match lookupE n.edges p with
    | some e => mmatch e rest
    | none =>
      match n.vEdge with
      | some e => mmatch e rest
      | none => n.wEdge

/-- The leaf check of Match (src/matchers/mpath/mpath.go 57-58). -/
def mmatchLeaf (n : MNode) (segs : List (List Char)) : Option Route :=
  match mmatch n segs with
  | some e => e.leaf
  | none => none

/-! ### Concrete tries for the C1 examples -/

/-- The path trie with /a/{x}/c and /a/b/d registered, through the parser
and the path-level registration. -/
def c1Trie : PathMatcher :=
  (matcherForPathR (matcherForPathR newPathMatcher "/a/{x}/c".data "/a/{x}/c".data).1
    "/a/b/d".data "/a/b/d".data).1

/-- The path trie with /a/b/c and /{x}/b registered. -/
def c1ShadowTrie : PathMatcher :=
  (matcherForPathR (matcherForPathR newPathMatcher "/a/b/c".data "/a/b/c".data).1
    "/\x7bx\x7d/b".data "/\x7bx\x7d/b".data).1

/-- The path trie with only /{x}/b registered. -/
def c1VarTrie : PathMatcher :=
  (matcherForPathR newPathMatcher "/\x7bx\x7d/b".data "/\x7bx\x7d/b".data).1

/-- The mpath trie with /a/{x}/c and /a/b/d registered (mpath patterns
spell a variable with a leading colon, so the parsed segments are a, :x,
c and a, b, d). -/
def c1MTrie : MNode :=
  (mroute (mroute mnodeEmpty ["a".data, ":x".data, "c".data] "/a/:x/c".data).1
    ["a".data, "b".data, "d".data] "/a/b/d".data).1

/-- The mpath trie with /a/b/c and /a/{x}/d registered. -/
def c1MShadowTrie : MNode :=
  (mroute (mroute mnodeEmpty ["a".data, "b".data, "c".data] "/a/b/c".data).1
    ["a".data, ":x".data, "d".data] "/a/:x/d".data).1

/-- The mpath trie with only /a/{x}/d registered. -/
def c1MVarTrie : MNode :=
  (mroute mnodeEmpty ["a".data, ":x".data, "d".data] "/a/:x/d".data).1

/-- The path trie with /a/b, /a/{x} and /a/{*} registered: one node
carrying a static, a variable and a wildcard edge side by side. -/
def c1PrioTrie : PathMatcher :=
  (matcherForPathR (matcherForPathR (matcherForPathR newPathMatcher
      "/a/b".data "/a/b".data).1 "/a/{x}".data "/a/{x}".data).1
    "/a/{*}".data "/a/{*}".data).1

/-- C1 (amended): the tree matcher (matchPath of src/tree.go, equally
pathMatcher.match of src/matcher.go) prefers, at every segment position,
the static edge over the variable edge and the variable edge over the
wildcard edge, and backtracks through every level it passed: it returns
a node exactly when some structural descent consuming all request
segments exists; the static candidate is committed to when its descent
succeeds, the variable candidate is used when the static edge is missing
or its descent fails, and the wildcard edge is the final fallback once
both static and variable candidates fail.  However it commits to
reaching a node, not to reaching a bound route (see the counterexample
theorem); and the mpath matcher commits greedily with no backtracking at
all.  The concrete examples hold: with /a/{x}/c and /a/b/d registered,
/a/b/d resolves to the static route and /a/z/c to the variable route (on
both matchers), and with /a/b, /a/{x} and /a/{*} registered, /a/b takes
the static route, /a/c the variable route, and /a/c/d falls back to the
wildcard route. -/
theorem c1_path_priority_backtracking :
    (∀ (n : PathMatcher) (segs : List (List Char)) (e : PathMatcher),
        matchPath n segs = some e → Descends n segs e) ∧
    (∀ (n e : PathMatcher) (segs : List (List Char)),
        Descends n segs e → matchPath n segs ≠ none) ∧
    (∀ (n e : PathMatcher) (s : List Char),
        lookupE n.edges s = some e → matchPath n [s] = some e) ∧
    (∀ (n e x : PathMatcher) (s r : List Char) (rs : List (List Char)),
        lookupE n.edges s = some e → matchPath e (r :: rs) = some x →
          matchPath n (s :: r :: rs) = some x) ∧
    (∀ (n e : PathMatcher) (s : List Char),
        lookupE n.edges s = none → lookupE n.edges variableKey = some e →
          matchPath n [s] = some e) ∧
    (∀ (n e x : PathMatcher) (s r : List Char) (rs : List (List Char)),
        lookupE n.edges s = none → lookupE n.edges variableKey = some e →
          matchPath e (r :: rs) = some x → matchPath n (s :: r :: rs) = some x) ∧
    (∀ (n e1 e x : PathMatcher) (s r : List Char) (rs : List (List Char)),
        lookupE n.edges s = some e1 → matchPath e1 (r :: rs) = none →
          lookupE n.edges variableKey = some e → matchPath e (r :: rs) = some x →
            matchPath n (s :: r :: rs) = some x) ∧
    (∀ (n : PathMatcher) (s : List Char),
        lookupE n.edges s = none → lookupE n.edges variableKey = none →
          matchPath n [s] = lookupE n.edges wildcardKey) ∧
    (∀ (n : PathMatcher) (s r : List Char) (rs : List (List Char)),
        lookupE n.edges s = none → lookupE n.edges variableKey = none →
          matchPath n (s :: r :: rs) = lookupE n.edges wildcardKey) ∧
    (∀ (n e : PathMatcher) (s r : List Char) (rs : List (List Char)),
        lookupE n.edges s = none → lookupE n.edges variableKey = some e →
          matchPath e (r :: rs) = none →
            matchPath n (s :: r :: rs) = lookupE n.edges wildcardKey) ∧
    matchLeaf c1Trie ["a".data, "b".data, "d".data] = some ⟨"/a/b/d".data⟩ ∧
    matchLeaf c1Trie ["a".data, "z".data, "c".data] = some ⟨"/a/{x}/c".data⟩ ∧
    mmatchLeaf c1MTrie ["a".data, "b".data, "d".data] = some ⟨"/a/b/d".data⟩ ∧
    mmatchLeaf c1MTrie ["a".data, "z".data, "c".data] = some ⟨"/a/:x/c".data⟩ ∧
    matchLeaf c1PrioTrie ["a".data, "b".data] = some ⟨"/a/b".data⟩ ∧
    matchLeaf c1PrioTrie ["a".data, "c".data] = some ⟨"/a/{x}".data⟩ ∧
    matchLeaf c1PrioTrie ["a".data, "c".data, "d".data] = some ⟨"/a/{*}".data⟩ :=
  ⟨fun n segs e h => matchPath_sound segs n e h,
   fun n e segs hd => matchPath_complete hd,
   fun n e s h => matchPath_static_last h,
   fun n e x s r rs h hm => matchPath_static_step h hm,
   fun n e s hs hv => matchPath_var_last hs hv,
   fun n e x s r rs hs hv hm => matchPath_var_step hs hv hm,
   fun n e1 e x s r rs hs hm1 hv hm => matchPath_var_after_static hs hm1 hv hm,
   fun n s hs hv => matchPath_wild_last hs hv,
   fun n s r rs hs hv => matchPath_wild_step hs hv,
   fun n e s r rs hs hv hm => matchPath_wild_after_var hs hv hm,
   rfl, rfl, rfl, rfl, rfl, rfl, rfl⟩

/-- C1 counterexample: the search does not un-wind whenever descent fails
to reach a bound route.  On the tree matcher, with /a/b/c and /{x}/b
registered, the request path /a/b commits to the static chain a-b, whose
node carries no route, and the lookup yields no route although the
variable route /{x}/b matches /a/b (registering it alone resolves the
same request).  On the mpath matcher, with /a/b/c and /a/{x}/d
registered, a request for /a/b/d yields no route at all: after the static
edge b is taken there is no backtracking to the variable edge, although
/a/{x}/d matches /a/b/d (registering it alone resolves the same
request). -/
theorem c1_counterexample :
    matchLeaf c1ShadowTrie ["a".data, "b".data] = none ∧
    matchLeaf c1VarTrie ["a".data, "b".data] = some ⟨"/\x7bx\x7d/b".data⟩ ∧
    mmatchLeaf c1MShadowTrie ["a".data, "b".data, "d".data] = none ∧
    mmatchLeaf c1MVarTrie ["a".data, "b".data, "d".data] = some ⟨"/a/:x/d".data⟩ :=
  ⟨rfl, rfl, rfl, rfl⟩

/-- Witness for C1 discharging the hypotheses of the static-priority
conjunct at a concrete one-edge trie. -/
theorem c1_path_priority_backtracking_witness :
    matchPath (PathMatcher.mk none [("a".data, newPathMatcher)]) ["a".data] =
      some newPathMatcher :=
  c1_path_priority_backtracking.2.2.1 _ _ _ rfl

/-! ## C2: method dispatch (methodHandler) -/

/-- Go map lookup on a method table held as an association list. -/
def lookupS {α : Type} : List (String × α) → String → Option α
  | [], _ => none
  | (k, v) :: t, key => if k = key then some v else lookupS t key

/-- What a selected handler is, observably: a bound handler (by id), or a
synthesized Allow response with a status code and the Allow list. -/
inductive MethodSel where
  | handler (h : Nat)
  | allow (code : Nat) (allowed : List String)
deriving DecidableEq, Repr

/-- The allowed-method list built by allowHandler
(src/matchers/mpath/mpath.go 104-120, src/unnamed/part_008 517-530):
OPTIONS first, then every bound method other than the empty default key
and OPTIONS, in table order. -/
def allowList (hs : List (String × Nat)) : List String :=
  "OPTIONS" :: ((hs.map Prod.fst).filter fun m => m != "" && m != "OPTIONS")

/-- allowHandler: the synthesized response with the given status code. -/
def allowHandler (hs : List (String × Nat)) (code : Nat) : MethodSel :=
  MethodSel.allow code (allowList hs)

/-- methodHandler of src/matchers/mpath/mpath.go 79-100: nil for an empty
table; exact method first; then OPTIONS synthesizes 200; HEAD falls back
to GET and then (by fallthrough) to the default key; other methods fall
back to the default key; otherwise the synthesized 405. -/
def methodHandler (hs : List (String × Nat)) (method : String) : Option MethodSel :=
  if hs.isEmpty then none
  else
    match lookupS hs method with
    | some h => some (MethodSel.handler h)
    | none =>
      if method = "OPTIONS" then some (allowHandler hs 200)
      else if method = "HEAD" then
        match lookupS hs "GET" with
        | some h => some (MethodSel.handler h)
        | none =>
          match lookupS hs "" with
          | some h => some (MethodSel.handler h)
          | none => some (allowHandler hs 405)
      else
        match lookupS hs "" with
        | some h => some (MethodSel.handler h)
        | none => some (allowHandler hs 405)

/-- Route.methodHandler of src/unnamed/part_008 495-513: identical to the
mpath methodHandler except that it has no empty-table early return. -/
def methodHandlerRoute (hs : List (String × Nat)) (method : String) : MethodSel :=
  match lookupS hs method with
  | some h => MethodSel.handler h
  | none =>
    if method = "OPTIONS" then allowHandler hs 200
    else if method = "HEAD" then
      match lookupS hs "GET" with
      | some h => MethodSel.handler h
      | none =>
        match lookupS hs "" with
        | some h => MethodSel.handler h
        | none => allowHandler hs 405
    else
      match lookupS hs "" with
      | some h => MethodSel.handler h
      | none => allowHandler hs 405

/-- C2 counterexample: a route with a default-key handler and no exact
OPTIONS handler answers OPTIONS with the synthesized 200 response, not
with the default-key handler — the OPTIONS branch precedes the
default-key lookup in methodHandler (src/matchers/mpath/mpath.go 86-88
and src/unnamed/part_008 499-501), contradicting the claimed priority
order (3)-before-(4). -/
theorem c2_counterexample :
    methodHandler [("", 7)] "OPTIONS" = some (MethodSel.allow 200 ["OPTIONS"]) ∧
    methodHandler [("", 7)] "OPTIONS" ≠ some (MethodSel.handler 7) ∧
    methodHandlerRoute [("", 7)] "OPTIONS" = MethodSel.allow 200 ["OPTIONS"] :=
  ⟨rfl, by decide, rfl⟩

/-- C2 (amended): handler selection follows exactly (1) the exact-method
handler; (2) if the method is OPTIONS, the synthesized 200 with the Allow
list; (3) if HEAD, the GET handler; (4) the default-key handler (never
consulted for OPTIONS); (5) the synthesized 405 with the same Allow list;
and mpath's methodHandler returns no handler at all for an empty table. -/
theorem c2_method_dispatch_order :
    (∀ (hs : List (String × Nat)) (method : String) (h : Nat),
        hs.isEmpty = false → lookupS hs method = some h →
          methodHandler hs method = some (MethodSel.handler h)) ∧
    (∀ (hs : List (String × Nat)),
        hs.isEmpty = false → lookupS hs "OPTIONS" = none →
          methodHandler hs "OPTIONS" = some (MethodSel.allow 200 (allowList hs))) ∧
    (∀ (hs : List (String × Nat)) (h : Nat),
        hs.isEmpty = false → lookupS hs "HEAD" = none → lookupS hs "GET" = some h →
          methodHandler hs "HEAD" = some (MethodSel.handler h)) ∧
    (∀ (hs : List (String × Nat)) (method : String) (h : Nat),
        hs.isEmpty = false → method ≠ "OPTIONS" → lookupS hs method = none →
          (method = "HEAD" → lookupS hs "GET" = none) → lookupS hs "" = some h →
            methodHandler hs method = some (MethodSel.handler h)) ∧
    (∀ (hs : List (String × Nat)) (method : String),
        hs.isEmpty = false → method ≠ "OPTIONS" → lookupS hs method = none →
          (method = "HEAD" → lookupS hs "GET" = none) → lookupS hs "" = none →
            methodHandler hs method = some (MethodSel.allow 405 (allowList hs))) ∧
    (∀ method : String, methodHandler [] method = none) ∧
    (∀ (hs : List (String × Nat)) (method : String), hs.isEmpty = false →
        methodHandler hs method = some (methodHandlerRoute hs method)) := by
  refine ⟨?_, ?_, ?_, ?_, ?_, ?_, ?_⟩
  · intro hs method h he hl
    unfold methodHandler
    rw [he, hl]
    simp
  · intro hs he hl
    unfold methodHandler
    rw [he, hl]
    simp [allowHandler]
  · intro hs h he hl hg
    unfold methodHandler
    rw [he, hl, hg]
    simp
  · intro hs method h he hopt hl hg hd
    unfold methodHandler
    rw [he, hl]
    simp only [Bool.false_eq_true, if_false]
    rw [if_neg hopt]
    by_cases hh : method = "HEAD"
    · subst hh
      rw [if_pos rfl, hg rfl, hd]
    · rw [if_neg hh, hd]
  · intro hs method he hopt hl hg hd
    unfold methodHandler
    rw [he, hl]
    simp only [Bool.false_eq_true, if_false]
    rw [if_neg hopt]
    by_cases hh : method = "HEAD"
    · subst hh
      rw [if_pos rfl, hg rfl, hd]
      simp [allowHandler]
    · rw [if_neg hh, hd]
      simp [allowHandler]
  · intro method
    rfl
  · intro hs method he
    unfold methodHandler methodHandlerRoute
    rw [he]
    simp only [Bool.false_eq_true, if_false]
    cases hl : lookupS hs method with
    | some h => rfl
    | none =>
      by_cases hopt : method = "OPTIONS"
      · simp [hopt]
      · rw [if_neg hopt, if_neg hopt]
        by_cases hh : method = "HEAD"
        · subst hh
          rw [if_pos rfl, if_pos rfl]
          cases hg : lookupS hs "GET" with
          | some h => rfl
          | none => cases hd : lookupS hs "" <;> rfl
        · rw [if_neg hh, if_neg hh]
          cases hd : lookupS hs "" <;> rfl

/-- Witness for C2 at a table binding only GET: HEAD falls back to the
GET handler. -/
theorem c2_method_dispatch_order_witness :
    methodHandler [("GET", 3)] "HEAD" = some (MethodSel.handler 3) :=
  c2_method_dispatch_order.2.2.1 [("GET", 3)] 3 rfl rfl rfl

/-! ## C3: idempotent vs duplicate registration -/

theorem lookupE_updateAssoc_self {α : Type} (l : List (List Char × α)) (k : List Char)
    (v : α) : lookupE (updateAssoc l k v) k = some v := by
  induction l with
  | nil => simp [updateAssoc, lookupE]
  | cons kv t ih =>
    obtain ⟨k1, v1⟩ := kv
    by_cases hk : k1 = k
    · simp [updateAssoc, lookupE, hk]
    · simp [updateAssoc, lookupE, hk, ih]

theorem leafAt_edgeInsert (parts : List Part) (pm : PathMatcher) (r : Route) :
    leafAt (edgeInsert pm parts (fun _ => some r)) parts = some r := by
  induction parts generalizing pm with
  | nil => rfl
  | cons p ps ih =>
    unfold leafAt nodeAt edgeInsert
    rw [PathMatcher.edges, lookupE_updateAssoc_self]
    exact ih _

theorem nodeAt_keys_congr (parts parts2 : List Part) (pm : PathMatcher)
    (h : parts2.map edgeKey = parts.map edgeKey) :
    nodeAt pm parts2 = nodeAt pm parts := by
  induction parts generalizing parts2 pm with
  | nil =>
    cases parts2 with
    | nil => rfl
    | cons q qs => simp at h
  | cons p ps ih =>
    cases parts2 with
    | nil => simp at h
    | cons q qs =>
      simp only [List.map_cons, List.cons.injEq] at h
      unfold nodeAt
      rw [h.1]
      cases lookupE pm.edges (edgeKey p) with
      | none => rfl
      | some e => exact ih qs e h.2

theorem routeForPath_idem (pm m1 : PathMatcher) (parts : List Part) (pat : List Char)
    (r : Route) (h : routeForPath pm parts pat = (m1, Except.ok r)) :
    routeForPath m1 parts pat = (m1, Except.ok r) := by
  unfold routeForPath at h ⊢
  cases hl : leafAt pm parts with
  | some r0 =>
    simp only [hl] at h
    by_cases hp : r0.pattern = pat
    · simp only [if_pos hp] at h
      have hm : pm = m1 := congrArg Prod.fst h
      have hr : r0 = r := by
        have h2 := congrArg Prod.snd h
        simpa using h2
      subst hm
      subst hr
      simp [hl, hp]
    · simp only [if_neg hp] at h
      have h2 := congrArg Prod.snd h
      simp at h2
  | none =>
    simp only [hl] at h
    have hm : edgeInsert pm parts (fun _ => some ⟨pat⟩) = m1 := congrArg Prod.fst h
    have hr : (⟨pat⟩ : Route) = r := by
      have h2 := congrArg Prod.snd h
      simpa using h2
    subst hr
    rw [← hm]
    simp [leafAt_edgeInsert]

theorem routeForPath_duplicate (pm m1 : PathMatcher) (parts parts2 : List Part)
    (pat pat2 : List Char) (r : Route)
    (h : routeForPath pm parts pat = (m1, Except.ok r))
    (hk : parts2.map edgeKey = parts.map edgeKey) (hne : pat2 ≠ pat) :
    routeForPath m1 parts2 pat2 = (m1, Except.error (RegError.duplicate pat)) := by
  have hleaf : leafAt m1 parts = some ⟨pat⟩ := by
    unfold routeForPath at h
    cases hl : leafAt pm parts with
    | some r0 =>
      simp only [hl] at h
      by_cases hp : r0.pattern = pat
      · simp only [if_pos hp] at h
        have hm : pm = m1 := congrArg Prod.fst h
        subst hm
        rw [hl]
        congr 1
        cases r0
        simpa using hp
      · simp only [if_neg hp] at h
        have h2 := congrArg Prod.snd h
        simp at h2
    | none =>
      simp only [hl] at h
      have hm : edgeInsert pm parts (fun _ => some ⟨pat⟩) = m1 := congrArg Prod.fst h
      rw [← hm, leafAt_edgeInsert]
  have h2 : leafAt m1 parts2 = some ⟨pat⟩ := by
    unfold leafAt at hleaf ⊢
    rw [nodeAt_keys_congr parts parts2 m1 hk]
    exact hleaf
  unfold routeForPath
  simp only [h2]
  rw [if_neg (show ¬ (Route.mk pat).pattern = pat2 from fun e => hne (by simpa using e.symm))]

theorem matcherForPathR_idem (pm m1 : PathMatcher) (path pat : List Char) (r : Route)
    (h : matcherForPathR pm path pat = (m1, Except.ok r)) :
    matcherForPathR m1 path pat = (m1, Except.ok r) := by
  unfold matcherForPathR at h ⊢
  by_cases hp : path = []
  · rw [if_pos hp] at h ⊢
    exact routeForPath_idem _ _ _ _ _ h
  · rw [if_neg hp] at h ⊢
    cases hparse : parseV1 path '/' with
    | error e =>
      rw [hparse] at h
      exact absurd (congrArg Prod.snd h) (by simp)
    | ok parts =>
      rw [hparse] at h
      exact routeForPath_idem _ _ _ _ _ h

theorem matcherForPathR_dup (pm m1 : PathMatcher) (path path2 pat pat2 : List Char)
    (r : Route) (parts parts2 : List Part)
    (h : matcherForPathR pm path pat = (m1, Except.ok r))
    (hp : path ≠ []) (hp2 : path2 ≠ [])
    (h1 : parseV1 path '/' = Except.ok parts) (h2 : parseV1 path2 '/' = Except.ok parts2)
    (hk : parts2.map edgeKey = parts.map edgeKey) (hne : pat2 ≠ pat) :
    matcherForPathR m1 path2 pat2 = (m1, Except.error (RegError.duplicate pat)) := by
  unfold matcherForPathR at h ⊢
  rw [if_neg hp, h1] at h
  rw [if_neg hp2, h2]
  exact routeForPath_duplicate pm m1 parts parts2 pat pat2 r h hk hne

theorem updateAssoc_updateAssoc {α : Type} (l : List (List Char × α)) (k : List Char)
    (v w : α) : updateAssoc (updateAssoc l k v) k w = updateAssoc l k w := by
  induction l with
  | nil => simp [updateAssoc]
  | cons kv t ih =>
    obtain ⟨k1, v1⟩ := kv
    by_cases hk : k1 = k
    · simp [updateAssoc, hk]
    · simp [updateAssoc, hk, ih]

theorem updateAssoc_self_of_lookup {α : Type} (l : List (List Char × α)) (k : List Char)
    (v : α) (h : lookupE l k = some v) : updateAssoc l k v = l := by
  induction l with
  | nil => simp [lookupE] at h
  | cons kv t ih =>
    obtain ⟨k1, v1⟩ := kv
    by_cases hk : k1 = k
    · rw [lookupE, if_pos hk] at h
      cases h
      simp [updateAssoc, hk]
    · rw [lookupE, if_neg hk] at h
      simp [updateAssoc, hk, ih h]

/-- The end node the hostMatcher newEdge walk reaches, reading missing
edges as fresh empty matchers. -/
def hnodeAtD : HostMatcher → List Part → HostMatcher
  | n, [] => n
  | n, p :: ps => hnodeAtD ((lookupE n.edges (edgeKey p)).getD newHostMatcher) ps

/-- The edge chain for the given parts already exists in the host trie. -/
def hchainEx : HostMatcher → List Part → Prop
  | _, [] => True
  | n, p :: ps => ∃ e, lookupE n.edges (edgeKey p) = some e ∧ hchainEx e ps

theorem hmUpdate_snd (parts : List Part) (n : HostMatcher)
    (f : HostMatcher → HostMatcher × Except RegError Route) :
    (hmUpdate n parts f).2 = (f (hnodeAtD n parts)).2 := by
  induction parts generalizing n with
  | nil => rfl
  | cons p ps ih => exact ih ((lookupE n.edges (edgeKey p)).getD newHostMatcher)

theorem hnodeAtD_hmUpdate (parts : List Part) (n : HostMatcher)
    (f : HostMatcher → HostMatcher × Except RegError Route) :
    hnodeAtD (hmUpdate n parts f).1 parts = (f (hnodeAtD n parts)).1 := by
  induction parts generalizing n with
  | nil => rfl
  | cons p ps ih =>
    show hnodeAtD ((lookupE (updateAssoc n.edges (edgeKey p)
        (hmUpdate ((lookupE n.edges (edgeKey p)).getD newHostMatcher) ps f).1)
        (edgeKey p)).getD newHostMatcher) ps =
      (f (hnodeAtD ((lookupE n.edges (edgeKey p)).getD newHostMatcher) ps)).1
    rw [lookupE_updateAssoc_self]
    exact ih ((lookupE n.edges (edgeKey p)).getD newHostMatcher)

theorem hchainEx_hmUpdate (parts : List Part) (n : HostMatcher)
    (f : HostMatcher → HostMatcher × Except RegError Route) :
    hchainEx (hmUpdate n parts f).1 parts := by
  induction parts generalizing n with
  | nil => trivial
  | cons p ps ih =>
    show ∃ e, lookupE (hmUpdate n (p :: ps) f).1.edges (edgeKey p) = some e ∧ hchainEx e ps
    exact ⟨(hmUpdate ((lookupE n.edges (edgeKey p)).getD newHostMatcher) ps f).1,
      lookupE_updateAssoc_self _ _ _,
      ih ((lookupE n.edges (edgeKey p)).getD newHostMatcher)⟩

/-- A walk whose chain exists and whose end-node action fixes the end
node leaves the whole host trie unchanged. -/
theorem hmUpdate_stable (parts : List Part) (n : HostMatcher)
    (g : HostMatcher → HostMatcher × Except RegError Route)
    (res2 : Except RegError Route) (hchain : hchainEx n parts)
    (hstab : g (hnodeAtD n parts) = (hnodeAtD n parts, res2)) :
    hmUpdate n parts g = (n, res2) := by
  induction parts generalizing n with
  | nil => exact hstab
  | cons p ps ih =>
    obtain ⟨e, he, hch⟩ := hchain
    cases n with
    | mk l es =>
      have he2 : lookupE es (edgeKey p) = some e := he
      have h2 : hnodeAtD (HostMatcher.mk l es) (p :: ps) = hnodeAtD e ps := by
        show hnodeAtD ((lookupE es (edgeKey p)).getD newHostMatcher) ps = hnodeAtD e ps
        rw [he2]
        rfl
      have hrec := ih e hch (by rw [← h2]; exact hstab)
      show (HostMatcher.mk l (updateAssoc es (edgeKey p)
          (hmUpdate ((lookupE es (edgeKey p)).getD newHostMatcher) ps g).1),
        (hmUpdate ((lookupE es (edgeKey p)).getD newHostMatcher) ps g).2) =
          (HostMatcher.mk l es, res2)
      rw [he2]
      simp only [Option.getD_some, hrec]
      rw [updateAssoc_self_of_lookup es (edgeKey p) e he2]

/-- Re-walking the chain a previous walk created, with an action that
fixes the node the first action produced, changes nothing further. -/
theorem hmUpdate_second (parts : List Part) (n : HostMatcher)
    (f g : HostMatcher → HostMatcher × Except RegError Route)
    (res2 : Except RegError Route)
    (hstab : g ((f (hnodeAtD n parts)).1) = ((f (hnodeAtD n parts)).1, res2)) :
    hmUpdate (hmUpdate n parts f).1 parts g = ((hmUpdate n parts f).1, res2) := by
  apply hmUpdate_stable
  · exact hchainEx_hmUpdate parts n f
  · rw [hnodeAtD_hmUpdate]
    exact hstab

theorem hostLeafAct_stable (path path2 pat pat2 : List Char) (r : Route)
    (res2 : Except RegError Route)
    (hpath : ∀ pm pm1 : PathMatcher, matcherForPathR pm path pat = (pm1, Except.ok r) →
        matcherForPathR pm1 path2 pat2 = (pm1, res2))
    (en : HostMatcher) (hok : (hostLeafAct path pat en).2 = Except.ok r) :
    hostLeafAct path2 pat2 (hostLeafAct path pat en).1 =
      ((hostLeafAct path pat en).1, res2) := by
  cases en with
  | mk l es =>
    have hfirst : matcherForPathR (l.getD newPathMatcher) path pat =
        ((matcherForPathR (l.getD newPathMatcher) path pat).1, Except.ok r) :=
      Prod.ext rfl hok
    have hsec := hpath _ _ hfirst
    simp only [hostLeafAct, HostMatcher.leaf, HostMatcher.edges, Option.getD_some, hsec]

theorem matcherForHostR_second (hm hm1 : HostMatcher) (host path path2 pat pat2 : List Char)
    (r : Route) (res2 : Except RegError Route)
    (h : matcherForHostR hm host path pat = (hm1, Except.ok r))
    (hpath : ∀ pm pm1 : PathMatcher, matcherForPathR pm path pat = (pm1, Except.ok r) →
        matcherForPathR pm1 path2 pat2 = (pm1, res2)) :
    matcherForHostR hm1 host path2 pat2 = (hm1, res2) := by
  have core : ∀ parts : List Part,
      hmUpdate hm parts (hostLeafAct path pat) = (hm1, Except.ok r) →
      hmUpdate hm1 parts (hostLeafAct path2 pat2) = (hm1, res2) := by
    intro parts hupd
    have hm1eq : (hmUpdate hm parts (hostLeafAct path pat)).1 = hm1 := by rw [hupd]
    have hok : (hostLeafAct path pat (hnodeAtD hm parts)).2 = Except.ok r := by
      rw [← hmUpdate_snd parts hm (hostLeafAct path pat), hupd]
    have hstab := hostLeafAct_stable path path2 pat pat2 r res2 hpath (hnodeAtD hm parts) hok
    rw [← hm1eq]
    exact hmUpdate_second parts hm (hostLeafAct path pat) (hostLeafAct path2 pat2) res2 hstab
  unfold matcherForHostR at h ⊢
  by_cases hh : host = []
  · rw [if_pos hh] at h ⊢
    exact core _ h
  · rw [if_neg hh] at h ⊢
    cases hp : parseV1 host '.' with
    | error e =>
      rw [hp] at h
      exact absurd (congrArg Prod.snd h) (by simp)
    | ok parts =>
      rw [hp] at h
      exact core _ h

theorem matcherForSchemeR_second (sm sm1 : SchemeMatcher)
    (scheme host path path2 pat pat2 : List Char) (r : Route)
    (res2 : Except RegError Route)
    (h : matcherForSchemeR sm scheme host path pat = (sm1, Except.ok r))
    (hpath : ∀ pm pm1 : PathMatcher, matcherForPathR pm path pat = (pm1, Except.ok r) →
        matcherForPathR pm1 path2 pat2 = (pm1, res2)) :
    matcherForSchemeR sm1 scheme host path2 pat2 = (sm1, res2) := by
  have h' : (updateAssoc sm (if scheme = [] then wildcardKey else scheme)
      (matcherForHostR ((lookupE sm (if scheme = [] then wildcardKey
        else scheme)).getD newHostMatcher) host path pat).1,
      (matcherForHostR ((lookupE sm (if scheme = [] then wildcardKey
        else scheme)).getD newHostMatcher) host path pat).2) = (sm1, Except.ok r) := h
  show (updateAssoc sm1 (if scheme = [] then wildcardKey else scheme)
      (matcherForHostR ((lookupE sm1 (if scheme = [] then wildcardKey
        else scheme)).getD newHostMatcher) host path2 pat2).1,
      (matcherForHostR ((lookupE sm1 (if scheme = [] then wildcardKey
        else scheme)).getD newHostMatcher) host path2 pat2).2) = (sm1, res2)
  cases hX : matcherForHostR ((lookupE sm (if scheme = [] then wildcardKey
      else scheme)).getD newHostMatcher) host path pat with
  | mk hm2 res0 =>
    rw [hX] at h'
    have hres : res0 = Except.ok r := congrArg Prod.snd h'
    subst hres
    have hsm1 : updateAssoc sm (if scheme = [] then wildcardKey else scheme) hm2 = sm1 :=
      congrArg Prod.fst h'
    have hsec := matcherForHostR_second _ hm2 host path path2 pat pat2 r res2 hX hpath
    rw [← hsm1, lookupE_updateAssoc_self]
    simp only [Option.getD_some, hsec, updateAssoc_updateAssoc]

theorem insertU_second (m2 m3 : MatcherU) (scheme host path path2 pat pat2 : List Char)
    (r : Route) (res2 : Except RegError Route)
    (h : insertU m2 scheme host path pat = (m3, Except.ok r))
    (hpath : ∀ pm pm1 : PathMatcher, matcherForPathR pm path pat = (pm1, Except.ok r) →
        matcherForPathR pm1 path2 pat2 = (pm1, res2)) :
    insertU m3 scheme host path2 pat2 = (m3, res2) := by
  cases m2 with
  | sm s =>
    have h' : (MatcherU.sm (matcherForSchemeR s scheme host path pat).1,
        (matcherForSchemeR s scheme host path pat).2) = (m3, Except.ok r) := h
    cases hX : matcherForSchemeR s scheme host path pat with
    | mk s1 res0 =>
      rw [hX] at h'
      have hres : res0 = Except.ok r := congrArg Prod.snd h'
      subst hres
      have hm3 : MatcherU.sm s1 = m3 := congrArg Prod.fst h'
      have hsec := matcherForSchemeR_second s s1 scheme host path path2 pat pat2 r res2 hX hpath
      rw [← hm3]
      show (MatcherU.sm (matcherForSchemeR s1 scheme host path2 pat2).1,
        (matcherForSchemeR s1 scheme host path2 pat2).2) = (MatcherU.sm s1, res2)
      rw [hsec]
  | hm x =>
    have h' : (MatcherU.hm (matcherForHostR x host path pat).1,
        (matcherForHostR x host path pat).2) = (m3, Except.ok r) := h
    cases hX : matcherForHostR x host path pat with
    | mk x1 res0 =>
      rw [hX] at h'
      have hres : res0 = Except.ok r := congrArg Prod.snd h'
      subst hres
      have hm3 : MatcherU.hm x1 = m3 := congrArg Prod.fst h'
      have hsec := matcherForHostR_second x x1 host path path2 pat pat2 r res2 hX hpath
      rw [← hm3]
      show (MatcherU.hm (matcherForHostR x1 host path2 pat2).1,
        (matcherForHostR x1 host path2 pat2).2) = (MatcherU.hm x1, res2)
      rw [hsec]
  | pm p =>
    have h' : (MatcherU.pm (matcherForPathR p path pat).1,
        (matcherForPathR p path pat).2) = (m3, Except.ok r) := h
    cases hX : matcherForPathR p path pat with
    | mk p1 res0 =>
      rw [hX] at h'
      have hres : res0 = Except.ok r := congrArg Prod.snd h'
      subst hres
      have hm3 : MatcherU.pm p1 = m3 := congrArg Prod.fst h'
      have hsec := hpath p p1 hX
      rw [← hm3]
      show (MatcherU.pm (matcherForPathR p1 path2 pat2).1,
        (matcherForPathR p1 path2 pat2).2) = (MatcherU.pm p1, res2)
      rw [hsec]

/-- The conversion switch is a no-op on what the insertion dispatch
returns for the same scheme and host: wrapping happens at most once. -/
theorem convertU_insertU_fix (m : MatcherU) (scheme host path pat : List Char) :
    convertU (insertU (convertU m scheme host) scheme host path pat).1 scheme host =
      (insertU (convertU m scheme host) scheme host path pat).1 := by
  cases m with
  | sm s => rfl
  | hm x =>
    by_cases hs : scheme = []
    · simp [convertU, insertU, hs]
    · simp [convertU, insertU, hs]
  | pm p =>
    by_cases hs : scheme = []
    · by_cases hh : host = []
      · simp [convertU, insertU, hs, hh]
      · simp [convertU, insertU, hs, hh]
    · simp [convertU, insertU, hs]

/-- After a successful registration the router holds the matcher the
insertion produced; a further registration of the same scheme and host
whose path level is stable returns the same matcher with the path-level
result. -/
theorem routeU_second (m m' : MatcherU) (scheme host path path2 pat pat2 : List Char)
    (r : Route) (res2 : Except RegError Route)
    (h : routeU m scheme host path pat = (m', Except.ok r))
    (hpath : ∀ pm pm1 : PathMatcher, matcherForPathR pm path pat = (pm1, Except.ok r) →
        matcherForPathR pm1 path2 pat2 = (pm1, res2)) :
    routeU m' scheme host path2 pat2 = (m', res2) := by
  unfold routeU at h
  cases hins : insertU (convertU m scheme host) scheme host path pat with
  | mk m3 res0 =>
    simp only [hins] at h
    cases res0 with
    | error e0 =>
      cases e0 with
      | parse e1 => exact absurd (congrArg Prod.snd h) (by simp)
      | duplicate p1 => exact absurd (congrArg Prod.snd h) (by simp)
    | ok r0 =>
      have hm3 : m3 = m' := congrArg Prod.fst h
      have hr0 : r0 = r := by
        have h2 := congrArg Prod.snd h
        simpa using h2
      subst hm3
      subst hr0
      have hconv : convertU m3 scheme host = m3 := by
        have hfix := convertU_insertU_fix m scheme host path pat
        rw [hins] at hfix
        exact hfix
      have hins2 : insertU m3 scheme host path2 pat2 = (m3, res2) :=
        insertU_second (convertU m scheme host) m3 scheme host path path2 pat pat2 r0 res2
          hins hpath
      unfold routeU
      simp only [hconv, hins2]
      cases res2 with
      | ok r2 => rfl
      | error e2 =>
        cases e2 with
        | parse e3 => simp
        | duplicate p3 => rfl

theorem routeU_idem (m m' : MatcherU) (scheme host path pat : List Char) (r : Route)
    (h : routeU m scheme host path pat = (m', Except.ok r)) :
    routeU m' scheme host path pat = (m', Except.ok r) :=
  routeU_second m m' scheme host path path pat pat r (Except.ok r) h
    (fun pm pm1 hp => matcherForPathR_idem pm pm1 path pat r hp)

theorem routeU_dup (m m' : MatcherU) (scheme host path path2 pat pat2 : List Char)
    (r : Route) (parts parts2 : List Part)
    (h : routeU m scheme host path pat = (m', Except.ok r))
    (hp : path ≠ []) (hp2 : path2 ≠ [])
    (h1 : parseV1 path '/' = Except.ok parts) (h2 : parseV1 path2 '/' = Except.ok parts2)
    (hk : parts2.map edgeKey = parts.map edgeKey) (hne : pat2 ≠ pat) :
    routeU m' scheme host path2 pat2 = (m', Except.error (RegError.duplicate pat)) :=
  routeU_second m m' scheme host path path2 pat pat2 r
    (Except.error (RegError.duplicate pat)) h
    (fun pm pm1 hpp =>
      matcherForPathR_dup pm pm1 path path2 pat pat2 r parts parts2 hpp hp hp2 h1 h2 hk hne)

/-- The mpath insertion reaches a node for the inserted segments and
binds the route there. -/
theorem mnodeAt_medgeInsert (segs : List (List Char)) (n : MNode) (r : Route) :
    ∃ en, mnodeAt (medgeInsert n segs (fun _ => some r)) segs = some en ∧
      en.leaf = some r := by
  induction segs generalizing n with
  | nil => exact ⟨_, rfl, rfl⟩
  | cons seg rest ih =>
    by_cases h1 : seg.head? = some ':'
    · obtain ⟨en, he, hl⟩ := ih (n.vEdge.getD mnodeEmpty)
      refine ⟨en, ?_, hl⟩
      simp [medgeInsert, mnodeAt, MNode.vEdge, h1]
      exact he
    · by_cases h2 : seg.head? = some '*'
      · refine ⟨MNode.mk (n.wEdge.getD mnodeEmpty).edges (n.wEdge.getD mnodeEmpty).vEdge
          (n.wEdge.getD mnodeEmpty).wEdge (some r), ?_, rfl⟩
        simp [medgeInsert, mnodeAt, MNode.wEdge, h1, h2]
      · obtain ⟨en, he, hl⟩ := ih ((lookupE n.edges seg).getD mnodeEmpty)
        refine ⟨en, ?_, hl⟩
        simp [medgeInsert, mnodeAt, MNode.edges, h1, h2, lookupE_updateAssoc_self]
        exact he

/-- Every mpath re-registration of segments already bound — whatever the
trie and the new pattern string — is the duplicate error, and leaves the
trie unchanged. -/
theorem mroute_dup (m m1 : MNode) (segs : List (List Char)) (pat : List Char) (r : Route)
    (h : mroute m segs pat = (m1, Except.ok r)) :
    mroute m1 segs pat = (m1, Except.error (RegError.duplicate pat)) := by
  have hm1 : m1 = medgeInsert m segs (fun _ => some ⟨pat⟩) := by
    unfold mroute at h
    cases hn : mnodeAt m segs with
    | some en =>
      simp only [hn] at h
      cases hl : en.leaf with
      | some r0 =>
        simp only [hl] at h
        exact absurd (congrArg Prod.snd h) (by simp)
      | none =>
        simp only [hl] at h
        exact (congrArg Prod.fst h).symm
    | none =>
      simp only [hn] at h
      exact (congrArg Prod.fst h).symm
  obtain ⟨en, he, hl⟩ := mnodeAt_medgeInsert segs m ⟨pat⟩
  rw [hm1]
  unfold mroute
  simp only [he, hl]

/-- C3 counterexample: the mpath matcher's Route
(src/matchers/mpath/mpath.go 39-51) rejects a re-registration of the
byte-identical pattern string: the second call returns the duplicate
error instead of the existing Route without error. -/
theorem c3_counterexample :
    (mroute mnodeEmpty ["a".data] "/a".data).2 = Except.ok ⟨"/a".data⟩ ∧
    mroute (mroute mnodeEmpty ["a".data] "/a".data).1 ["a".data] "/a".data =
      ((mroute mnodeEmpty ["a".data] "/a".data).1,
        Except.error (RegError.duplicate "/a".data)) :=
  ⟨rfl, rfl⟩

/-- C3 (amended): for the core router's route (src/unnamed/part_008
336-346) over the src/matcher.go trie — whatever the matcher's current
shape and whether the pattern carries a scheme, a host, both or neither —
registering the identical pattern a second time returns the same Route
with no error and leaves the matcher unchanged, and registering a
different pattern string with the same scheme and host whose path parts
carry the same edge keys (so it resolves to the already-bound leaf)
fails with the duplicate error naming the existing pattern, again
leaving the matcher unchanged.  The mpath matcher's Route, however,
rejects every re-registration of bound segments after a successful one,
the byte-identical string included (see the counterexample). -/
theorem c3_route_registration :
    (∀ (m m' : MatcherU) (scheme host path pat : List Char) (r : Route),
        routeU m scheme host path pat = (m', Except.ok r) →
          routeU m' scheme host path pat = (m', Except.ok r)) ∧
    (∀ (m m' : MatcherU) (scheme host path path2 pat pat2 : List Char) (r : Route)
        (parts parts2 : List Part),
        routeU m scheme host path pat = (m', Except.ok r) →
        path ≠ [] → path2 ≠ [] →
        parseV1 path '/' = Except.ok parts → parseV1 path2 '/' = Except.ok parts2 →
        parts2.map edgeKey = parts.map edgeKey → pat2 ≠ pat →
          routeU m' scheme host path2 pat2 = (m', Except.error (RegError.duplicate pat))) ∧
    (∀ (m m1 : MNode) (segs : List (List Char)) (pat : List Char) (r : Route),
        mroute m segs pat = (m1, Except.ok r) →
          mroute m1 segs pat = (m1, Except.error (RegError.duplicate pat))) :=
  ⟨fun m m' scheme host path pat r h => routeU_idem m m' scheme host path pat r h,
   fun m m' scheme host path path2 pat pat2 r parts parts2 h hp hp2 h1 h2 hk hne =>
     routeU_dup m m' scheme host path path2 pat pat2 r parts parts2 h hp hp2 h1 h2 hk hne,
   fun m m1 segs pat r h => mroute_dup m m1 segs pat r h⟩

/-- Witness for C3: re-registering the full pattern http://a.com/a on the
matcher its first registration produced (starting from a bare path trie,
which that first call promotes to a scheme matcher) returns the same
Route and the same matcher without error. -/
theorem c3_route_registration_witness :
    routeU (routeU (MatcherU.pm newPathMatcher) "http".data "a.com".data "/a".data
        "http://a.com/a".data).1 "http".data "a.com".data "/a".data
        "http://a.com/a".data =
      ((routeU (MatcherU.pm newPathMatcher) "http".data "a.com".data "/a".data
          "http://a.com/a".data).1,
        Except.ok ⟨"http://a.com/a".data⟩) :=
  c3_route_registration.1 (MatcherU.pm newPathMatcher) _ "http".data "a.com".data
    "/a".data "http://a.com/a".data ⟨"http://a.com/a".data⟩ rfl

/-! ## C8: parse-error atomicity of registration -/

/-- C8 counterexample: on a matcher that is already host-wrapped,
registering //a.com/{ — whose host parses and whose path fails to parse —
aborts with a parse error but leaves behind the host edges a → com and a
fresh empty path trie, created while processing the earlier components:
matcherForHost of src/matcher.go inserts the host edges before
matcherForPath parses the path (the starting matcher had no edges at
all).  Likewise, when the scheme key is new, matcherForScheme stores a
fresh empty host matcher under it before the host parses, so a host
parse failure leaves the new scheme entry behind in a previously empty
scheme map. -/
theorem c8_counterexample :
    routeU (MatcherU.hm newHostMatcher) [] "a.com".data "/\x7b".data "//a.com/\x7b".data =
      (MatcherU.hm (HostMatcher.mk none
          [("a".data, HostMatcher.mk none
            [("com".data, HostMatcher.mk (some newPathMatcher) [])])]),
        Except.error (RegError.parse PError.unexpectedEof)) ∧
    newHostMatcher.edges = [] ∧
    matcherForSchemeR [] "http".data "\x7b".data "/p".data "http://\x7b/p".data =
      ([("http".data, newHostMatcher)],
        Except.error (RegError.parse PError.unexpectedEof)) :=
  ⟨rfl, rfl, rfl⟩

/-- C8 (amended): a parse failure of the host or path component (the
scheme component is never parsed) aborts the registration with an error,
and the registration is atomic — no created node, edge or wrapper
remains — when the matcher is a bare path trie, when the failing pattern
is the one that promotes the matcher (the parse panic fires before the
router's matcher assignment, so the discarded wrapper never reaches it),
when the host fails to parse on a host-wrapped matcher, and when the
host fails to parse under a scheme key that already exists.  But a path
parse failure on a host- or scheme-wrapped matcher leaves behind the
host edges and the fresh empty path trie created for the earlier
components, and a host parse failure under a fresh scheme key leaves
behind the new empty scheme entry (see the counterexample). -/
theorem c8_parse_error_atomicity :
    (∀ (pm : PathMatcher) (path pat : List Char) (e : PError), path ≠ [] →
        parseV1 path '/' = Except.error e →
          routeU (MatcherU.pm pm) [] [] path pat =
            (MatcherU.pm pm, Except.error (RegError.parse e))) ∧
    (∀ (m : MatcherU) (scheme host path pat : List Char) (e : PError),
        convertedU m scheme host = true →
        (routeU m scheme host path pat).2 = Except.error (RegError.parse e) →
          (routeU m scheme host path pat).1 = m) ∧
    (∀ (hm : HostMatcher) (host path pat : List Char) (e : PError), host ≠ [] →
        parseV1 host '.' = Except.error e →
          matcherForHostR hm host path pat = (hm, Except.error (RegError.parse e))) ∧
    (∀ (sm : SchemeMatcher) (scheme host path pat : List Char) (e : PError)
        (hm0 : HostMatcher), host ≠ [] →
        parseV1 host '.' = Except.error e →
        lookupE sm (if scheme = [] then wildcardKey else scheme) = some hm0 →
          matcherForSchemeR sm scheme host path pat =
            (sm, Except.error (RegError.parse e))) := by
  refine ⟨?_, ?_, ?_, ?_⟩
  · intro pm path pat e hne hparse
    unfold routeU convertU convertedU insertU matcherForPathR
    simp [hne, hparse]
  · intro m scheme host path pat e hconv herr
    unfold routeU at herr ⊢
    cases hins : (insertU (convertU m scheme host) scheme host path pat) with
    | mk m3 res =>
      simp only [hins] at herr ⊢
      cases res with
      | error e2 =>
        cases e2 with
        | parse e3 => simp [hconv]
        | duplicate p1 => simp at herr
      | ok r => simp at herr
  · intro hm host path pat e hne hparse
    unfold matcherForHostR
    rw [if_neg hne, hparse]
  · intro sm scheme host path pat e hm0 hne hparse hlook
    have hh : matcherForHostR hm0 host path pat = (hm0, Except.error (RegError.parse e)) := by
      unfold matcherForHostR
      rw [if_neg hne, hparse]
    show (updateAssoc sm (if scheme = [] then wildcardKey else scheme)
        (matcherForHostR ((lookupE sm (if scheme = [] then wildcardKey
          else scheme)).getD newHostMatcher) host path pat).1,
      (matcherForHostR ((lookupE sm (if scheme = [] then wildcardKey
        else scheme)).getD newHostMatcher) host path pat).2) =
        (sm, Except.error (RegError.parse e))
    rw [hlook]
    simp only [Option.getD_some, hh]
    rw [updateAssoc_self_of_lookup sm (if scheme = [] then wildcardKey else scheme) hm0 hlook]

/-- Witness for C8: a bad path pattern on a bare path matcher leaves it
unchanged. -/
theorem c8_parse_error_atomicity_witness :
    routeU (MatcherU.pm newPathMatcher) [] [] "/\x7b".data "/\x7b".data =
      (MatcherU.pm newPathMatcher, Except.error (RegError.parse PError.unexpectedEof)) :=
  c8_parse_error_atomicity.1 newPathMatcher "/\x7b".data "/\x7b".data
    PError.unexpectedEof (by decide) rfl

/-! ## C9: sentinel-key collision with percent-decoded static segments -/

/-- The parts the part_000 parser produces for /x/%7Bv%7D: the escaped
braces decode to the literal text of the variable sentinel. -/
def c9Parts : List Part :=
  [⟨PartType.staticPart, "x".data⟩, ⟨PartType.staticPart, variableKey⟩]

/-- The leaf node bound for the pattern /x/%7Bv%7D. -/
def c9Leaf : PathMatcher := PathMatcher.mk (some ⟨"/x/%7Bv%7D".data⟩) []

/-- The path trie with /x/%7Bv%7D registered, built by the newEdge key
selection from the parsed parts. -/
def c9Trie : PathMatcher :=
  (routeForPath newPathMatcher c9Parts "/x/%7Bv%7D".data).1

theorem c9Trie_shape :
    c9Trie = PathMatcher.mk none
      [("x".data, PathMatcher.mk none [(variableKey, c9Leaf)])] := rfl

/-- C9: a static path segment whose percent-decoded value is the literal
variable sentinel is stored under the variable sentinel key, so the route
matches any single request segment at that position and clashes with a
separately registered variable segment; the same collision exists for a
static value equal to the wildcard sentinel.  Concretely: /x/%7Bv%7D
parses to a static part valued like the sentinel; its edge key equals the
key of every variable part; after registration the route is found for
every request segment in the second position; and registering the
variable pattern /x/{name} afterwards fails as a duplicate of
/x/%7Bv%7D. -/
theorem c9_sentinel_key_collision :
    parseP "/x/%7Bv%7D".data '/' = Except.ok c9Parts ∧
    (∀ name : List Char,
        edgeKey ⟨PartType.staticPart, variableKey⟩ = edgeKey ⟨PartType.variablePart, name⟩) ∧
    edgeKey ⟨PartType.staticPart, wildcardKey⟩ = edgeKey ⟨PartType.wildcardPart, []⟩ ∧
    (∀ s : List Char, matchPath c9Trie ["x".data, s] = some c9Leaf) ∧
    (routeForPath c9Trie
        [⟨PartType.staticPart, "x".data⟩, ⟨PartType.variablePart, "name".data⟩]
        "/x/\x7bname\x7d".data).2 =
      Except.error (RegError.duplicate "/x/%7Bv%7D".data) := by
  refine ⟨rfl, fun name => rfl, rfl, ?_, rfl⟩
  intro s
  have h1 : matchPath (PathMatcher.mk none [(variableKey, c9Leaf)]) [s] = some c9Leaf := by
    rw [matchPath_last_eq]
    by_cases hs : variableKey = s
    · simp [PathMatcher.edges, lookupE, hs]
    · simp [PathMatcher.edges, lookupE, hs]
  have h0 : lookupE c9Trie.edges "x".data =
      some (PathMatcher.mk none [(variableKey, c9Leaf)]) := rfl
  exact matchPath_static_step h0 h1

/-! ## C5: variable extraction (mpath newPattern and setVars) -/

/-- pattern of src/matchers/mpath/mpath.go 205-208: the replay parts
(static runs start with a slash; a bare name is a variable; a star the
wildcard) and the capture keys. -/
structure MPattern where
  parts : List (List Char)
  keys : List (List Char)
deriving DecidableEq, Repr

/-- The loop of newPattern (src/matchers/mpath/mpath.go 179-203),
threading the static-run buffer b: a colon segment flushes b plus a
slash and appends the variable name to parts and keys; a star segment
does the same with the star itself; other segments extend b with a slash
and the text.  A colon segment with an empty name appends nothing (the
source checks `s != ""`). -/
def npLoop : List (List Char) → List Char → List (List Char) → List (List Char) → MPattern
  | [], b, parts, keys => ⟨if b.isEmpty then parts else parts ++ [b], keys⟩
  | seg :: rest, b, parts, keys =>
    match seg with
    | ':' :: t =>
      if t.isEmpty then npLoop rest b parts keys
      else npLoop rest [] (parts ++ [b ++ ['/'], t]) (keys ++ [t])
    | '*' :: _ => npLoop rest [] (parts ++ [b ++ ['/'], seg]) (keys ++ [seg])
    | _ => npLoop rest (b ++ ['/'] ++ seg) parts keys

/-- newPattern of src/matchers/mpath/mpath.go 179-203. -/
def newPatternM (segs : List (List Char)) : MPattern := npLoop segs [] [] []

/-- strings.IndexByte on a char list. -/
def indexByte (c : Char) : List Char → Option Nat
  | [] => none
  | x :: t => if x = c then some 0 else (indexByte c t).map (· + 1)

/-- The replay loop of setVars (src/matchers/mpath/mpath.go 226-251).  A
part starting with a slash skips len(part)-1 bytes of the path; a star
captures the whole remaining path (the `break` in the source only leaves
the switch, so the loop goes on — harmlessly, the star is last); a
variable part captures up to the next slash, or, when no slash remains,
the whole rest without advancing idx (that `break` too only leaves the
switch).  The source indexes part[0], so an empty part is impossible
there; newPattern never produces one, and we route it to the variable
branch. -/
def setVarsLoop : List (List Char) → List Char → Nat → List (List Char) → List (List Char)
  | [], _, _, vars => vars
  | part :: rest, path, idx, vars =>
    if part.head? = some '/' then
      setVarsLoop rest (path.drop (part.length - 1)) idx vars
    else if part.head? = some '*' then
      setVarsLoop rest path idx (vars.set idx path)
    else
      match indexByte '/' path with
      | none => setVarsLoop rest path idx (vars.set idx path)
      | some i => setVarsLoop rest (path.drop (i + 1)) (idx + 1) (vars.set idx (path.take i))

/-- setVars of src/matchers/mpath/mpath.go 226-251: for a route with keys,
replay the parts against the path with the leading slash dropped; the
result is the key-to-value binding the context serves (varsCtx.Value
resolves a key to the same-index capture). -/
def setVars (p : MPattern) (path : List Char) : List (List Char × List Char) :=
  if p.keys.isEmpty then []
  else p.keys.zip (setVarsLoop p.parts (path.drop 1) 0 (List.replicate p.keys.length []))

theorem take_of_append_left (v t : List Char) : (v ++ t).take v.length = v := by
  induction v with
  | nil => rfl
  | cons c cs ih => simp [ih]

theorem drop_of_append_left (v t : List Char) : (v ++ t).drop v.length = t := by
  induction v with
  | nil => rfl
  | cons c cs ih => simp [ih]

theorem indexByte_of_append (v t : List Char) (hv : ¬ '/' ∈ v) :
    indexByte '/' (v ++ '/' :: t) = some v.length := by
  induction v with
  | nil => simp [indexByte]
  | cons c cs ih =>
    have hc : c ≠ '/' := fun e => hv (by simp [e])
    have ih2 := ih (fun m => hv (by simp [m]))
    simp [indexByte, hc, ih2]

theorem drop_of_append_left_succ (v t : List Char) (c : Char) :
    (v ++ c :: t).drop (v.length + 1) = t := by
  rw [show v ++ c :: t = (v ++ [c]) ++ t by simp]
  rw [show v.length + 1 = (v ++ [c]).length by simp]
  exact drop_of_append_left _ _

theorem setVarsLoop_static (p tail : List Char) (rest : List (List Char)) (idx : Nat)
    (vars : List (List Char)) :
    setVarsLoop (('/' :: p) :: rest) (p ++ tail) idx vars =
      setVarsLoop rest tail idx vars := by
  conv_lhs => rw [setVarsLoop.eq_def]
  simp [drop_of_append_left]

theorem setVarsLoop_var (c : Char) (cs v tail : List Char) (rest : List (List Char))
    (idx : Nat) (vars : List (List Char)) (hc1 : c ≠ '/') (hc2 : c ≠ '*')
    (hv : ¬ '/' ∈ v) :
    setVarsLoop ((c :: cs) :: rest) (v ++ '/' :: tail) idx vars =
      setVarsLoop rest tail (idx + 1) (vars.set idx v) := by
  conv_lhs => rw [setVarsLoop.eq_def]
  simp [hc1, hc2, indexByte_of_append v tail hv, take_of_append_left, drop_of_append_left_succ]

theorem setVarsLoop_wild (w path : List Char) (rest : List (List Char)) (idx : Nat)
    (vars : List (List Char)) :
    setVarsLoop (('*' :: w) :: rest) path idx vars =
      setVarsLoop rest path idx (vars.set idx path) := by
  conv_lhs => rw [setVarsLoop.eq_def]
  simp

theorem setVarsLoop_slash1 (path : List Char) (rest : List (List Char)) (idx : Nat)
    (vars : List (List Char)) :
    setVarsLoop (['/'] :: rest) path idx vars = setVarsLoop rest path idx vars := by
  have h := setVarsLoop_static [] path rest idx vars
  simpa using h

/-- C5: variable extraction replays the stored parts against the matched
path: static runs are skipped by their length, a variable captures one
segment up to the next slash, the terminal wildcard captures the whole
remainder with its slashes.  Stated for the claim's pattern
/foo/{bar}/baz/{qux}/{*} (spelled /foo/:bar/baz/:qux/* in the mpath
grammar) and arbitrary slash-free values V1, V2 and remainder rest:
the extracted bindings are bar=V1, qux=V2, *=rest. -/
theorem c5_variable_extraction :
    newPatternM ["foo".data, ":bar".data, "baz".data, ":qux".data, ['*']] =
      ⟨["/foo/".data, "bar".data, "/baz/".data, "qux".data, ['/'], ['*']],
        ["bar".data, "qux".data, ['*']]⟩ ∧
    (∀ V1 V2 rest : List Char, ¬ '/' ∈ V1 → ¬ '/' ∈ V2 →
        setVars (newPatternM ["foo".data, ":bar".data, "baz".data, ":qux".data, ['*']])
            ('/' :: ("foo/".data ++ (V1 ++ ('/' :: ("baz/".data ++ (V2 ++ ('/' :: rest))))))) =
          [("bar".data, V1), ("qux".data, V2), (['*'], rest)]) := by
  constructor
  · rfl
  · intro V1 V2 rest h1 h2
    unfold setVars
    have hnp : newPatternM ["foo".data, ":bar".data, "baz".data, ":qux".data, ['*']] =
        ⟨["/foo/".data, "bar".data, "/baz/".data, "qux".data, ['/'], ['*']],
          ["bar".data, "qux".data, ['*']]⟩ := rfl
    rw [hnp]
    simp only [List.isEmpty_cons, Bool.false_eq_true, if_false, List.drop_succ_cons,
      List.drop_zero, List.length_cons, List.length_nil, List.replicate]
    rw [setVarsLoop_static ['f', 'o', 'o', '/'] _ _ _ _]
    rw [setVarsLoop_var 'b' ['a', 'r'] V1 _ _ _ _ (by decide) (by decide) h1]
    rw [setVarsLoop_static ['b', 'a', 'z', '/'] _ _ _ _]
    rw [setVarsLoop_var 'q' ['u', 'x'] V2 _ _ _ _ (by decide) (by decide) h2]
    rw [setVarsLoop_slash1 rest _ _ _]
    rw [setVarsLoop_wild [] rest _ _ _]
    simp [setVarsLoop, List.set, List.zip]

/-- Witness for C5 at the claim's concrete path /foo/V1/baz/V2/x/y/z. -/
theorem c5_variable_extraction_witness :
    setVars (newPatternM ["foo".data, ":bar".data, "baz".data, ":qux".data, ['*']])
        "/foo/V1/baz/V2/x/y/z".data =
      [("bar".data, "V1".data), ("qux".data, "V2".data), (['*'], "x/y/z".data)] :=
  c5_variable_extraction.2 "V1".data "V2".data "x/y/z".data (by decide) (by decide)

/-- Witness for C6: a percent-free input is returned unchanged. -/
theorem c6_percent_decode_contract_witness :
    DecodePathSegment [65, 66] = Except.ok [65, 66] :=
  (c6_percent_decode_contract [65, 66]).2.2.2 (by decide)

/-- Witness for C4 at a concrete one-label host and one-segment path. -/
theorem c4_promotion_preserves_reachability_witness :
    matchHM (PathMatcher.toHostMatcher newPathMatcher) [['h']] [['q']] =
      matchPath newPathMatcher [['q']] :=
  c4_promotion_preserves_reachability.1 newPathMatcher [['h']] [['q']] (by decide)

end Muxy
